import Mathlib

/-!
# Lizard-Bot dashboard: Shell (`App.jsx`) and Settings Editor (`Settings.jsx`)

A shallow embedding of the two React components of `src/web/frontend/src`.

* JavaScript values (JSON data and `undefined`) are the inductive type `JVal`.  An object is
  its list of own properties in insertion order, and the first binding of a key is the
  property.
* A number is a `JNum`.  Integers of magnitude up to 2^53, negative zero and the two infinities
  are held exactly, and a numeric literal is read to the double it denotes when that double is
  one of these.  Any other finite number is carried as a literal that denotes it, so for those
  the rounding to a double and the digits JavaScript prints are outside the model.
* A string is a sequence of characters (not of UTF-16 code units), and keys that look like
  array indices are not moved to the front of an object.
* `JSON.stringify` and `JSON.parse` are the ECMAScript algorithms on that value type.
* Every `async` handler makes its `fetch` calls against a backend `Net`, a function from the
  request to what `fetch` settles with: `none` is a rejected promise (network error).
  A handler returns an `Outcome`: the component state after the handler has run, the requests
  it issued, the `alert` notices it raised, the calls it made to `onSaved`, and whether the
  promise it returns was rejected.
-/

/-! ## Numbers -/

/-- A number value.  `int n` is the integer `n`, of magnitude at most 2^53 (zero is positive
zero); `inf neg` is `Infinity` or `-Infinity`; `other lit` is a finite number that is none of
these, carried as a literal that denotes it. -/
inductive JNum where
  | int (n : Int)
  | negZero
  | inf (neg : Bool)
  | other (lit : String)
  deriving DecidableEq

namespace JNum

/-- The decimal digit `d` as a character. -/
def digitChar (d : Nat) : Char := Char.ofNat (48 + d)

/-- The decimal digits of `n`, most significant first, in front of `acc`. -/
def digitsAux : Nat → Nat → List Char → List Char
  | 0, _, acc => acc
  | fuel + 1, n, acc =>
    if n < 10 then digitChar n :: acc else digitsAux fuel (n / 10) (digitChar (n % 10) :: acc)

/-- The decimal numeral of a natural number. -/
def natDigits (n : Nat) : List Char := digitsAux (n + 1) n []

/-- The decimal numeral of an integer. -/
def intDigits : Int → List Char
  | Int.ofNat n => natDigits n
  | Int.negSucc n => '-' :: natDigits (n + 1)

/-- ToBoolean of a number: the two zeros are falsy. -/
def truthy : JNum → Bool
  | int n => decide (n ≠ 0)
  | negZero => false
  | inf _ => true
  | other _ => true

/-- Number::toString, as `String(x)` computes it. -/
def toStr : JNum → List Char
  | int n => intDigits n
  | negZero => ['0']
  | inf false => "Infinity".toList
  | inf true => "-Infinity".toList
  | other lit => lit.toList

/-- What `JSON.stringify` writes for a number: a number that is not finite is written
`null`. -/
def ser : JNum → List Char
  | int n => intDigits n
  | negZero => ['0']
  | inf _ => "null".toList
  | other lit => lit.toList

/-- Whether the number is an integer of magnitude at most 2^53. -/
def exact : JNum → Bool
  | int n => decide (n.natAbs ≤ 2 ^ 53)
  | _ => false

end JNum

/-! ## JavaScript values -/

/-- The values a component can hold: JSON data and `undefined`. -/
inductive JVal where
  | undefined
  | null
  | bool (b : Bool)
  | num (x : JNum)
  | str (s : String)
  | arr (xs : List JVal)
  | obj (kvs : List (String × JVal))

namespace JVal

instance : Inhabited JVal := ⟨undefined⟩

/-- ToBoolean.  `undefined`, `null`, `false`, zero and the empty string are falsy. -/
def truthy : JVal → Bool
  | undefined => false
  | null => false
  | bool b => b
  | num x => x.truthy
  | str s => decide (s ≠ "")
  | arr _ => true
  | obj _ => true

/-- The operator `a || b`. -/
def or (a b : JVal) : JVal := if a.truthy then a else b

/-- Index-keyed entries of an array-like value: `0`, `1`, ... -/
def indexed (xs : List JVal) : List (String × JVal) :=
  xs.enum.map (fun p => (toString p.1, p.2))

/-- Own enumerable properties, in enumeration order: what `{...v}` copies.  A string is
enumerated by character. -/
def ownEntries : JVal → List (String × JVal)
  | obj kvs => kvs
  | arr xs => indexed xs
  | str s => indexed (s.toList.map (fun c => str (String.singleton c)))
  | _ => []

/-- Own property names. -/
def keys (v : JVal) : List String := v.ownEntries.map Prod.fst

/-- Property read `v[k]` over the own enumerable properties; an absent property reads
`undefined`.  (Inherited properties such as `length` are not modelled; none of the names the
components read is one.) -/
def get (v : JVal) (k : String) : JVal :=
  match v.ownEntries.lookup k with
  | some x => x
  | none => undefined

/-- Whether `k` is an own property. -/
def has (v : JVal) (k : String) : Bool := (v.ownEntries.lookup k).isSome

/-- Define or overwrite the property `k` of a property list: an existing property keeps its
place, a new one goes last. -/
def setProp (kvs : List (String × JVal)) (k : String) (v : JVal) : List (String × JVal) :=
  if (kvs.lookup k).isSome then kvs.map (fun p => if p.1 = k then (k, v) else p)
  else kvs ++ [(k, v)]

mutual
/-- ToString as `String(v)` computes it; `none` is a thrown TypeError (an object whose own
`toString` property is not callable, as every JSON value is). -/
def toStr : JVal → Option (List Char)
  | undefined => some "undefined".toList
  | null => some "null".toList
  | bool true => some "true".toList
  | bool false => some "false".toList
  | num x => some x.toStr
  | str s => some s.toList
  | arr xs => joinStr xs
  | obj kvs => if (kvs.lookup "toString").isSome then none else some "[object Object]".toList
/-- The method `Array.prototype.join` with the separator `,`. -/
def joinStr : List JVal → Option (List Char)
  | [] => some []
  | x :: r =>
    match elemStr x, joinStr r with
    | some a, some b => some (if r.isEmpty then a else a ++ ',' :: b)
    | _, _ => none
/-- One element of a join: `undefined` and `null` contribute the empty string. -/
def elemStr : JVal → Option (List Char)
  | undefined => some []
  | null => some []
  | bool true => some "true".toList
  | bool false => some "false".toList
  | num x => some x.toStr
  | str s => some s.toList
  | arr xs => joinStr xs
  | obj kvs => if (kvs.lookup "toString").isSome then none else some "[object Object]".toList
end

/-- The call `String(v)`. -/
def toJSString (v : JVal) : Option String := v.toStr.map String.mk

end JVal

/-! ## JSON text -/

namespace JSON

/-- Lower-case hexadecimal digit. -/
def hexDigit (n : Nat) : Char := if n < 10 then Char.ofNat (48 + n) else Char.ofNat (87 + n)

/-- QuoteJSONString on one character. -/
def quoteChar (c : Char) : List Char :=
  if c = '"' then ['\\', '"']
  else if c = '\\' then ['\\', '\\']
  else if c = Char.ofNat 8 then ['\\', 'b']
  else if c = Char.ofNat 12 then ['\\', 'f']
  else if c = '\n' then ['\\', 'n']
  else if c = '\r' then ['\\', 'r']
  else if c = '\t' then ['\\', 't']
  else if c.toNat < 32 then ['\\', 'u', '0', '0', hexDigit (c.toNat / 16), hexDigit (c.toNat % 16)]
  else [c]

/-- Escaped characters of a string. -/
def quoteBody : List Char → List Char
  | [] => []
  | c :: r => quoteChar c ++ quoteBody r

/-- QuoteJSONString. -/
def quote (s : List Char) : List Char := '"' :: (quoteBody s ++ ['"'])

/-- Join the parts with a separator. -/
def joinWith (sep : List Char) : List (List Char) → List Char
  | [] => []
  | [p] => p
  | p :: q :: r => p ++ sep ++ joinWith sep (q :: r)

/-- Brackets around the serialized parts of an array or object (SerializeJSONArray and
SerializeJSONObject after the parts are computed): `indent` is the indentation of the parts,
`stepback` the one of the closing bracket. -/
def wrap (op cl : Char) (gap stepback indent : List Char) (parts : List (List Char)) :
    List Char :=
  if parts.isEmpty then [op, cl]
  else if gap.isEmpty then op :: (joinWith [','] parts ++ [cl])
  else op :: '\n' :: (indent ++ (joinWith (',' :: '\n' :: indent) parts ++ '\n' :: (stepback ++ [cl])))

mutual
/-- SerializeJSONProperty: `none` is `undefined` (nothing to serialize). -/
def ser (gap indent : List Char) : JVal → Option (List Char)
  | JVal.undefined => none
  | JVal.null => some "null".toList
  | JVal.bool true => some "true".toList
  | JVal.bool false => some "false".toList
  | JVal.num x => some x.ser
  | JVal.str s => some (quote s.toList)
  | JVal.arr xs => some (wrap '[' ']' gap indent (indent ++ gap) (serElems gap (indent ++ gap) xs))
  | JVal.obj kvs =>
    some (wrap '{' '}' gap indent (indent ++ gap) (serMembers gap (indent ++ gap) kvs))
/-- Parts of an array: an `undefined` element is written `null`. -/
def serElems (gap indent : List Char) : List JVal → List (List Char)
  | [] => []
  | x :: r =>
    (match ser gap indent x with
      | some t => t
      | none => "null".toList) :: serElems gap indent r
/-- Parts of an object: a property whose value is `undefined` is left out. -/
def serMembers (gap indent : List Char) : List (String × JVal) → List (List Char)
  | [] => []
  | p :: r =>
    match serMember gap indent p with
    | some t => t :: serMembers gap indent r
    | none => serMembers gap indent r
/-- One `"key": value` part. -/
def serMember (gap indent : List Char) : String × JVal → Option (List Char)
  | (k, v) =>
    match ser gap indent v with
    | some t => some (quote k.toList ++ ':' :: ((if gap.isEmpty then [] else [' ']) ++ t))
    | none => none
end

/-- The call `JSON.stringify(v, null, space)` for a numeric `space` (`JSON.stringify(v)` is
`space = 0`); `none` is the result `undefined`. -/
def stringify (v : JVal) (space : Nat) : Option String :=
  (ser (List.replicate (min space 10) ' ') [] v).map String.mk

end JSON

namespace JSON

/-- JSON whitespace. -/
def isWs (c : Char) : Bool := c = ' ' || c = '\t' || c = '\n' || c = '\r'

/-- Drop leading whitespace. -/
def skipWs : List Char → List Char
  | [] => []
  | c :: r => if isWs c then skipWs r else c :: r

/-- Decimal digit. -/
def isDigit (c : Char) : Bool := decide ('0' ≤ c ∧ c ≤ '9')

/-- Value of a hexadecimal digit. -/
def hexVal (c : Char) : Option Nat :=
  if '0' ≤ c ∧ c ≤ '9' then some (c.toNat - 48)
  else if 'a' ≤ c ∧ c ≤ 'f' then some (c.toNat - 87)
  else if 'A' ≤ c ∧ c ≤ 'F' then some (c.toNat - 55)
  else none

/-- Value of the four hexadecimal digits of a `\u` escape. -/
def hex4 (a b c d : Char) : Option Nat :=
  match hexVal a, hexVal b, hexVal c, hexVal d with
  | some w, some x, some y, some z => some (((w * 16 + x) * 16 + y) * 16 + z)
  | _, _, _, _ => none

/-- The character a single-letter escape denotes. -/
def unescape (e : Char) : Option Char :=
  if e = '"' then some '"'
  else if e = '\\' then some '\\'
  else if e = '/' then some '/'
  else if e = 'b' then some (Char.ofNat 8)
  else if e = 'f' then some (Char.ofNat 12)
  else if e = 'n' then some '\n'
  else if e = 'r' then some '\r'
  else if e = 't' then some '\t'
  else none

/-- Put a character in front of a parsed string. -/
def push (c : Char) : Option (List Char × List Char) → Option (List Char × List Char)
  | some (s, r) => some (c :: s, r)
  | none => none

/-- Emit U+FFFD for a pending escaped high surrogate that found no partner (a Lean string
cannot hold a lone surrogate). -/
def flush (hi : Option Nat) (res : Option (List Char × List Char)) :
    Option (List Char × List Char) :=
  match hi with
  | some _ => push (Char.ofNat 0xFFFD) res
  | none => res

/-- The characters of a string literal after its opening quote, up to and including the
closing quote.  `hi` is an escaped high surrogate just read: with the escaped low surrogate
that follows it is one character. -/
def parseStringBody (hi : Option Nat) : List Char → Option (List Char × List Char)
  | [] => none
  | c :: r =>
    if c = '"' then flush hi (some ([], r))
    else if c = '\\' then
      match r with
      | [] => none
      | e :: r1 =>
        if e = 'u' then
          match r1 with
          | a :: b :: c2 :: d :: r2 =>
            match hex4 a b c2 d with
            | none => none
            | some n =>
              if 0xDC00 ≤ n ∧ n < 0xE000 then
                match hi with
                | some h =>
                  push (Char.ofNat (0x10000 + (h - 0xD800) * 0x400 + (n - 0xDC00)))
                    (parseStringBody none r2)
                | none => push (Char.ofNat 0xFFFD) (parseStringBody none r2)
              else if 0xD800 ≤ n ∧ n < 0xDC00 then flush hi (parseStringBody (some n) r2)
              else flush hi (push (Char.ofNat n) (parseStringBody none r2))
          | _ => none
        else
          match unescape e with
          | some x => flush hi (push x (parseStringBody none r1))
          | none => none
    else if c.toNat < 32 then none
    else flush hi (push c (parseStringBody none r))

/-- One or more digits, appended to the literal read so far. -/
def digits1 (acc cs : List Char) : Option (List Char × List Char) :=
  if (cs.takeWhile isDigit).isEmpty then none
  else some (acc ++ cs.takeWhile isDigit, cs.dropWhile isDigit)

/-- Optional exponent part of a number. -/
def parseExp (acc : List Char) : List Char → Option (List Char × List Char)
  | [] => some (acc, [])
  | e :: r =>
    if e = 'e' ∨ e = 'E' then
      match r with
      | [] => none
      | s :: r1 =>
        if s = '+' ∨ s = '-' then digits1 (acc ++ [e, s]) r1
        else digits1 (acc ++ [e]) (s :: r1)
    else some (acc, e :: r)

/-- Optional fraction part of a number, then the exponent. -/
def parseFrac (acc : List Char) : List Char → Option (List Char × List Char)
  | [] => some (acc, [])
  | c :: r =>
    if c = '.' then
      match digits1 (acc ++ ['.']) r with
      | some (acc1, r1) => parseExp acc1 r1
      | none => none
    else parseExp acc (c :: r)

/-- Integer part of a number (`0`, or a non-zero digit and more digits), then the rest. -/
def parseInt (acc : List Char) : List Char → Option (List Char × List Char)
  | [] => none
  | d :: r =>
    if d = '0' then parseFrac (acc ++ ['0']) r
    else if isDigit d then parseFrac (acc ++ d :: r.takeWhile isDigit) (r.dropWhile isDigit)
    else none

/-- A JSON number at the head of the input: the literal and the input after it. -/
def parseNumber : List Char → Option (List Char × List Char)
  | [] => none
  | c :: r => if c = '-' then parseInt ['-'] r else parseInt [] (c :: r)

/-- The value of a string of decimal digits. -/
def readNat (ds : List Char) : Nat := ds.foldl (fun a c => 10 * a + (c.toNat - 48)) 0

/-- The exponent written in the exponent part of a number literal (the part from `e` on, or
nothing). -/
def readExp : List Char → Int
  | [] => 0
  | [_] => 0
  | _ :: s :: ds =>
    if s = '-' then -(readNat ds : Int)
    else if s = '+' then (readNat ds : Int)
    else (readNat (s :: ds) : Int)

/-- Zero with the sign of the literal. -/
def zero (neg : Bool) : JNum := if neg then JNum.negZero else JNum.int 0

/-- Numerator of `M × 10^s` as a fraction of natural numbers. -/
def scaledNum (M : Nat) (s : Int) : Nat := M * 10 ^ s.toNat

/-- Denominator of `M × 10^s` as a fraction of natural numbers. -/
def scaledDen (s : Int) : Nat := 10 ^ (-s).toNat

/-- The number value of `±M × 10^s`, where `M` is written with `L` digits and so is below
`10^L`: the double nearest to it (ties to even) when that is a zero, an infinity or an
integer up to 2^53 that the value equals, and otherwise the literal itself.  A value of at
most 2^-1075 rounds to zero and a value of at least 2^1024 - 2^970 to infinity; the guards on
`s` and `L` settle the clear cases without computing a large power. -/
def classify (neg : Bool) (M L : Nat) (s : Int) (lit : List Char) : JNum :=
  if M = 0 then zero neg
  else if 308 < s then JNum.inf neg
  else if s < -((L : Int) + 400) then zero neg
  else if s < 0 ∧ scaledNum M s * 2 ^ 1075 ≤ scaledDen s then zero neg
  else if 300 < (L : Int) + s ∧ (2 ^ 1024 - 2 ^ 970) * scaledDen s ≤ scaledNum M s then
    JNum.inf neg
  else if scaledNum M s % scaledDen s = 0 ∧ scaledNum M s / scaledDen s ≤ 2 ^ 53 then
    JNum.int (if neg then -((scaledNum M s / scaledDen s : Nat) : Int)
      else ((scaledNum M s / scaledDen s : Nat) : Int))
  else JNum.other (String.mk lit)

/-- A number literal without its sign. -/
def unsigned (lit : List Char) : List Char := if lit.head? = some '-' then lit.tail else lit

/-- The digits of the integer part of a number literal. -/
def intPart (lit : List Char) : List Char := (unsigned lit).takeWhile isDigit

/-- The digits of the fraction part of a number literal. -/
def fracPart (lit : List Char) : List Char :=
  match (unsigned lit).dropWhile isDigit with
  | [] => []
  | c :: t => if c = '.' then t.takeWhile isDigit else []

/-- The exponent part of a number literal, from its `e` on. -/
def expPart (lit : List Char) : List Char :=
  match (unsigned lit).dropWhile isDigit with
  | [] => []
  | c :: t => if c = '.' then t.dropWhile isDigit else c :: t

/-- The number value of a number literal (StringToNumber on the literals of JSON): the digits
of its integer and fraction parts scaled by its exponent, with its sign. -/
def toNumber (lit : List Char) : JNum :=
  classify (decide (lit.head? = some '-')) (readNat (intPart lit ++ fracPart lit))
    (intPart lit ++ fracPart lit).length
    (readExp (expPart lit) - ((fracPart lit).length : Int)) lit

/-- The input after the given word, when the input starts with it. -/
def dropWord : List Char → List Char → Option (List Char)
  | [], cs => some cs
  | _ :: _, [] => none
  | w :: ws, c :: cs => if w = c then dropWord ws cs else none

mutual
/-- A JSON value at the head of the input, after optional whitespace. -/
def parseValue : Nat → List Char → Option (JVal × List Char)
  | 0, _ => none
  | fuel + 1, cs =>
    match skipWs cs with
    | [] => none
    | c :: r =>
      if c = '{' then
        match skipWs r with
        | [] => none
        | c1 :: r1 => if c1 = '}' then some (JVal.obj [], r1) else parseMembers fuel [] (c1 :: r1)
      else if c = '[' then
        match skipWs r with
        | [] => none
        | c1 :: r1 => if c1 = ']' then some (JVal.arr [], r1) else parseElements fuel [] (c1 :: r1)
      else if c = '"' then
        match parseStringBody none r with
        | some (s, r1) => some (JVal.str (String.mk s), r1)
        | none => none
      else if c = 't' then
        match dropWord "rue".toList r with
        | some r1 => some (JVal.bool true, r1)
        | none => none
      else if c = 'f' then
        match dropWord "alse".toList r with
        | some r1 => some (JVal.bool false, r1)
        | none => none
      else if c = 'n' then
        match dropWord "ull".toList r with
        | some r1 => some (JVal.null, r1)
        | none => none
      else
        match parseNumber (c :: r) with
        | some (lit, r1) => some (JVal.num (toNumber lit), r1)
        | none => none
/-- The elements of an array after the opening bracket, and the closing bracket. -/
def parseElements : Nat → List JVal → List Char → Option (JVal × List Char)
  | 0, _, _ => none
  | fuel + 1, acc, cs =>
    match parseValue fuel cs with
    | none => none
    | some (v, r) =>
      match skipWs r with
      | [] => none
      | c :: r1 =>
        if c = ',' then parseElements fuel (acc ++ [v]) r1
        else if c = ']' then some (JVal.arr (acc ++ [v]), r1)
        else none
/-- The members of an object after the opening brace, and the closing brace.  A repeated
key overwrites the earlier member. -/
def parseMembers : Nat → List (String × JVal) → List Char → Option (JVal × List Char)
  | 0, _, _ => none
  | fuel + 1, acc, cs =>
    match skipWs cs with
    | [] => none
    | q :: r =>
      if q = '"' then
        match parseStringBody none r with
        | none => none
        | some (k, r1) =>
          match skipWs r1 with
          | [] => none
          | c :: r2 =>
            if c = ':' then
              match parseValue fuel r2 with
              | none => none
              | some (v, r3) =>
                match skipWs r3 with
                | [] => none
                | c1 :: r4 =>
                  if c1 = ',' then parseMembers fuel (JVal.setProp acc (String.mk k) v) r4
                  else if c1 = '}' then some (JVal.obj (JVal.setProp acc (String.mk k) v), r4)
                  else none
            else none
      else none
end

/-- A complete JSON text: one value, whitespace around it, nothing after it.  The fuel is
twice the length of the text, more than any text needs (`parseValue_fuel`). -/
def parseChars (cs : List Char) : Option JVal :=
  match parseValue (2 * cs.length + 2) cs with
  | some (v, r) => if (skipWs r).isEmpty then some v else none
  | none => none

/-- The call `JSON.parse(text)`; `none` is a thrown SyntaxError. -/
def parse (text : String) : Option JVal := parseChars text.toList

end JSON

/-! ## The browser side: requests, responses, handler outcomes -/

/-- One `fetch(url, init)` call.  `method` is `GET` when `init` names none; `credentials` is the
`credentials` option of `init`, `none` when `init` has no such option; `body` is the `body`
option. -/
structure Request where
  url : String
  method : String := "GET"
  credentials : Option String := none
  headers : List (String × String) := []
  body : Option String := none
  deriving DecidableEq

/-- What a `fetch` promise resolves with: the `ok` flag (status 200-299) and the body text. -/
structure Response where
  ok : Bool
  body : String
  deriving DecidableEq

/-- The method `res.json()`: the parsed body; `none` is a rejected promise. -/
def Response.json (res : Response) : Option JVal := JSON.parse res.body

/-- The backend as the handlers see it: what `fetch` settles with for a request, `none` being a
rejected promise (network error). -/
abbrev Net := Request → Option Response

/-- What running a handler did. -/
structure Outcome (σ : Type) where
  /-- Component state when the handler is done. -/
  state : σ
  /-- The `fetch` calls made, in order. -/
  requests : List Request := []
  /-- The `alert` notices raised, in order. -/
  alerts : List String := []
  /-- The arguments of the calls made to the `onSaved` prop, in order. -/
  onSaved : List JVal := []
  /-- Whether the handler ended in an exception it did not catch. -/
  rejected : Bool := false

/-- Build-time environment (`import.meta.env`). -/
structure Env where
  VITE_BACKEND_URL : Option String
  VITE_INTERNAL_TOKEN : Option String

/-- The expression `value || fallback` on an environment string. -/
def envOr (value : Option String) (fallback : String) : String :=
  match value with
  | some v => if v = "" then fallback else v
  | none => fallback

/-- The argument conversion of `JSON.parse`: a string is parsed as it is, `undefined` as the
text `undefined`. -/
def JSON.parseText (text : Option String) : Option JVal :=
  match text with
  | some t => JSON.parse t
  | none => JSON.parse "undefined"

/-! ## Shell: `App.jsx` -/

namespace App

/-- The constant `backendOrigin` of `App`. -/
def backendOrigin (env : Env) : String := envOr env.VITE_BACKEND_URL "http://127.0.0.1:8000"

/-- State of the dashboard view.  `config` is the raw text (`none` is `undefined`). -/
structure State where
  guildId : String := ""
  config : Option String := some "\x7b\x7d"
  parsedConfig : JVal := JVal.null
  showSettings : Bool := false

/-- The handler `load`. -/
def load (env : Env) (net : Net) (s : State) : Outcome State :=
  if s.guildId = "" then { state := s }
  else
    let req : Request :=
      { url := backendOrigin env ++ "/api/guilds/" ++ s.guildId ++ "/config",
        credentials := some "include" }
    match net req with
    | none => { state := s, requests := [req], rejected := true }
    | some res =>
      match res.json with
      | none => { state := s, requests := [req], rejected := true }
      | some data =>
        { state := { s with config := JSON.stringify data 2, parsedConfig := data },
          requests := [req] }

/-- The handler `save`.  The `fetch` call is inside the `try` block, so its rejection ends in
the same `catch` as a failure of `JSON.parse`. -/
def save (env : Env) (net : Net) (s : State) : Outcome State :=
  if s.guildId = "" then { state := s }
  else
    match JSON.parseText s.config with
    | none => { state := s, alerts := ["Invalid JSON"] }
    | some body =>
      let req : Request :=
        { url := backendOrigin env ++ "/api/guilds/" ++ s.guildId ++ "/config",
          method := "POST",
          headers := [("Content-Type", "application/json"), ("X-INTERNAL-TOKEN", "")],
          body := JSON.stringify body 0 }
      match net req with
      | none => { state := s, requests := [req], alerts := ["Invalid JSON"] }
      | some res =>
        if res.ok then { state := s, requests := [req], alerts := ["Saved"] }
        else { state := s, requests := [req], alerts := ["Save failed"] }

/-- The click handler of the settings button. -/
def toggleSettings (s : State) : State :=
  if s.parsedConfig.truthy then { s with showSettings := !s.showSettings } else s

/-- The `onSaved` callback given to `Settings`. -/
def onSaved (b : JVal) (s : State) : State :=
  { s with parsedConfig := b, config := JSON.stringify b 2 }

end App

/-! ## Settings Editor: `Settings.jsx` -/

namespace Settings

/-- The props of `Settings`; `onSaved` tells whether the parent passed the callback. -/
structure Props where
  guildId : String
  backendOrigin : String
  initialConfig : JVal
  onSaved : Bool := true

/-- One entry of a `Select`. -/
structure SelectItem where
  value : String
  label : JVal

/-- The state hooks of `Settings`. -/
structure State where
  welcome : JVal
  announcementChannel : JVal
  roleId : JVal
  font : JVal
  imagePath : JVal
  channels : List SelectItem := []
  roles : List SelectItem := []
  previewUrl : Option String := none

/-- The constant `cfg`. -/
def cfg (p : Props) : JVal := p.initialConfig.or (JVal.obj [])

/-- The constant `internalToken`. -/
def internalToken (env : Env) : String := envOr env.VITE_INTERNAL_TOKEN ""

/-- The initial values of the state hooks. -/
def init (p : Props) : State :=
  { welcome := ((cfg p).get "welcome_message").or (JVal.str ""),
    announcementChannel := ((cfg p).get "announcement_channel_id").or (JVal.str ""),
    roleId := ((cfg p).get "role_id").or (JVal.str ""),
    font := ((cfg p).get "font").or (JVal.str ""),
    imagePath := ((cfg p).get "image").or (JVal.str "") }

/-- The arrow function mapped over a channel or role list; `none` is a thrown TypeError. -/
def toItem (c : JVal) : Option SelectItem :=
  match c with
  | JVal.undefined => none
  | JVal.null => none
  | c =>
    match (c.get "id").toJSString with
    | some v => some { value := v, label := (c.get "name").or (c.get "id") }
    | none => none

/-- The method `map` over the elements of an array. -/
def mapItems : List JVal → Option (List SelectItem)
  | [] => some []
  | c :: r =>
    match toItem c with
    | none => none
    | some i =>
      match mapItems r with
      | none => none
      | some is => some (i :: is)

/-- The call `j.map(...)`: a value that is not an array has no callable `map`. -/
def mapOptions : JVal → Option (List SelectItem)
  | JVal.arr xs => mapItems xs
  | _ => none

/-- The request for the channel list. -/
def channelsRequest (env : Env) (p : Props) : Request :=
  { url := p.backendOrigin ++ "/api/guilds/" ++ p.guildId ++ "/channels",
    headers := [("X-INTERNAL-TOKEN", internalToken env)] }

/-- The request for the role list. -/
def rolesRequest (env : Env) (p : Props) : Request :=
  { url := p.backendOrigin ++ "/api/guilds/" ++ p.guildId ++ "/roles",
    headers := [("X-INTERNAL-TOKEN", internalToken env)] }

/-- The effect on `guildId`: two `try` blocks one after the other, each with an empty
`catch`. -/
def loadReferenceData (env : Env) (net : Net) (p : Props) (st : State) : Outcome State :=
  if p.guildId = "" then { state := st }
  else
    let st1 : State :=
      match net (channelsRequest env p) with
      | none => st
      | some ch =>
        if ch.ok then
          match ch.json with
          | none => st
          | some jc =>
            match mapOptions jc with
            | none => st
            | some items => { st with channels := items }
        else st
    let st2 : State :=
      match net (rolesRequest env p) with
      | none => st1
      | some r =>
        if r.ok then
          match r.json with
          | none => st1
          | some jr =>
            match mapOptions jr with
            | none => st1
            | some items => { st1 with roles := items }
        else st1
    { state := st2, requests := [channelsRequest env p, rolesRequest env p] }

/-- An object literal `{...spread, k1: v1, ...}`: the spread value's own properties, then each
named property defined in turn. -/
def objectLiteral (spread : List (String × JVal)) (props : List (String × JVal)) : JVal :=
  JVal.obj (props.foldl (fun acc p => JVal.setProp acc p.1 p.2) spread)

/-- The object `body` of `handleSave`. -/
def handleSaveBody (p : Props) (st : State) : JVal :=
  objectLiteral (cfg p).ownEntries
    [("welcome_message", st.welcome),
     ("announcement_channel_id", st.announcementChannel),
     ("role_id", st.roleId),
     ("font", st.font),
     ("image", st.imagePath)]

/-- The handler `handleSave`. -/
def handleSave (env : Env) (net : Net) (p : Props) (st : State) : Outcome State :=
  let body := handleSaveBody p st
  let req : Request :=
    { url := p.backendOrigin ++ "/api/guilds/" ++ p.guildId ++ "/config",
      method := "POST",
      headers := [("Content-Type", "application/json"), ("X-INTERNAL-TOKEN", internalToken env)],
      body := JSON.stringify body 0 }
  match net req with
  | none => { state := st, requests := [req], rejected := true }
  | some res =>
    if res.ok then
      { state := st, requests := [req], alerts := ["Saved"],
        onSaved := if p.onSaved then [body] else [] }
    else { state := st, requests := [req], alerts := ["Save failed"] }

/-- The object `body` of `requestPreview`. -/
def requestPreviewBody (st : State) : JVal :=
  objectLiteral []
    [("welcome_message", st.welcome),
     ("announcement_channel_id", st.announcementChannel),
     ("role_id", st.roleId),
     ("font", st.font),
     ("image", st.imagePath)]

/-- The handler `requestPreview`.  The object URL made for the blob is identified with the
blob's content. -/
def requestPreview (env : Env) (net : Net) (p : Props) (st : State) : Outcome State :=
  let body := requestPreviewBody st
  let req : Request :=
    { url := p.backendOrigin ++ "/api/guilds/" ++ p.guildId ++ "/preview",
      method := "POST",
      headers := [("Content-Type", "application/json"), ("X-INTERNAL-TOKEN", internalToken env)],
      body := JSON.stringify body 0 }
  match net req with
  | none => { state := st, requests := [req], rejected := true }
  | some res =>
    if res.ok then { state := { st with previewUrl := some res.body }, requests := [req] }
    else { state := st, requests := [req], alerts := ["Preview generation failed"] }

/-- The object `body` of `savePreview`. -/
def savePreviewBody (st : State) : JVal :=
  objectLiteral []
    [("welcome_message", st.welcome),
     ("announcement_channel_id", st.announcementChannel),
     ("role_id", st.roleId),
     ("font", st.font),
     ("image", st.imagePath)]

/-- The handler `savePreview`.  Reading `j.path` throws when `j` is `null`. -/
def savePreview (env : Env) (net : Net) (p : Props) (st : State) : Outcome State :=
  let body := savePreviewBody st
  let req : Request :=
    { url := p.backendOrigin ++ "/api/guilds/" ++ p.guildId ++ "/preview/save",
      method := "POST",
      headers := [("Content-Type", "application/json"), ("X-INTERNAL-TOKEN", internalToken env)],
      body := JSON.stringify body 0 }
  match net req with
  | none => { state := st, requests := [req], rejected := true }
  | some res =>
    if res.ok then
      match res.json with
      | none => { state := st, requests := [req], rejected := true }
      | some JVal.null => { state := st, requests := [req], rejected := true }
      | some j =>
        { state := { st with imagePath := j.get "path" }, requests := [req],
          alerts := ["Preview saved to uploads"] }
    else { state := st, requests := [req], alerts := ["Save preview failed"] }

end Settings

namespace App

/-- The props `App` renders `Settings` with. -/
def settingsProps (env : Env) (s : State) : Settings.Props :=
  { guildId := s.guildId, backendOrigin := backendOrigin env, initialConfig := s.parsedConfig,
    onSaved := true }

/-- A click on the editor's save button while `App` shows the editor: `handleSave` runs with
the props `App` passed, and `App` runs its `onSaved` callback on every call the handler makes
to it. -/
def settingsSave (env : Env) (net : Net) (s : State) (e : Settings.State) : State :=
  (Settings.handleSave env net (settingsProps env s) e).onSaved.foldl (fun t b => onSaved b t) s

end App


/-! ## Vocabulary of the properties -/

/-- The five configuration names the editor binds to its fields. -/
def knownKeys : List String :=
  ["welcome_message", "announcement_channel_id", "role_id", "font", "image"]

/-- What the editor shows for a configuration name when it opens (per the `||` default): the
stored value when the name is present with a truthy value, the empty string when the name is
absent or its value is falsy. -/
def seeded (config : JVal) (k : String) : JVal :=
  match config.ownEntries.lookup k with
  | some v => if v.truthy then v else JVal.str ""
  | none => JVal.str ""

/-! ## Concrete inputs -/

/-- A build environment with neither variable set. -/
def env0 : Env := { VITE_BACKEND_URL := none, VITE_INTERNAL_TOKEN := none }

/-- Editor props for guild `1` on the configuration `{"role_id": null}`. -/
def nullRoleProps : Settings.Props :=
  { guildId := "1", backendOrigin := "http://127.0.0.1:8000",
    initialConfig := JVal.obj [("role_id", JVal.null)] }

/-- The read request `load` makes for the Shell state `s`. -/
def loadRequest (env : Env) (s : App.State) : Request :=
  { url := App.backendOrigin env ++ "/api/guilds/" ++ s.guildId ++ "/config",
    method := "GET", credentials := some "include", headers := [], body := none }

/-- The write request the Shell is to make for the parsed text `body`: a `POST` of the
serialized value to the configuration endpoint. -/
def saveRequest (env : Env) (s : App.State) (body : JVal) : Request :=
  { url := App.backendOrigin env ++ "/api/guilds/" ++ s.guildId ++ "/config",
    method := "POST", credentials := none,
    headers := [("Content-Type", "application/json"), ("X-INTERNAL-TOKEN", "")],
    body := JSON.stringify body 0 }

/-- Shell state for guild `1` with the raw text `{`, which is not JSON. -/
def brokenTextState : App.State := { guildId := "1", config := some "\x7b" }

/-- Shell state for guild `1` with the raw text `{}`. -/
def emptyObjectState : App.State := { guildId := "1", config := some "\x7b\x7d" }

/-- A backend that is unreachable: every `fetch` rejects. -/
def netDown : Net := fun _ => none

/-- A backend that answers every request with status 200 and the body `{"font":"Arial"}`. -/
def netFont : Net := fun _ => some { ok := true, body := "\x7b\"font\":\"Arial\"\x7d" }

/-- The option list a settled list fetch delivers, if any: the fetch resolved, with a success
status, its body is the JSON text of an array, and every element could be mapped. Anything
else is a failed fetch. -/
def fetchedOptions (settled : Option Response) : Option (List Settings.SelectItem) :=
  match settled with
  | none => none
  | some res =>
    if res.ok then
      match JSON.parse res.body with
      | some (JVal.arr xs) => Settings.mapItems xs
      | _ => none
    else none

/-- Editor props for guild `1` on the empty configuration. -/
def plainProps : Settings.Props :=
  { guildId := "1", backendOrigin := "http://127.0.0.1:8000", initialConfig := JVal.obj [] }

/-- A backend whose channel list is unreachable and whose role list is
`[{"id":7,"name":"Admin"},{"id":"8"}]`. -/
def netRolesOnly : Net := fun req =>
  if req.url = "http://127.0.0.1:8000/api/guilds/1/roles" then
    some { ok := true,
           body := "[\x7b\"id\":7,\"name\":\"Admin\"\x7d,\x7b\"id\":\"8\"\x7d]" }
  else none

/-- Whether the input after a number cannot be read as more of the number: it is empty, or
starts with something that is not a digit, `.`, `e` or `E`. -/
def JSON.stops : List Char → Bool
  | [] => true
  | c :: _ => !JSON.isDigit c && decide (c ≠ '.') && decide (c ≠ 'e') && decide (c ≠ 'E')

mutual
/-- Whether the value is plain data: it holds no `undefined`, each of its numbers is an integer
of magnitude at most 2^53, and the keys of each object are distinct. -/
def JVal.plain : JVal → Bool
  | JVal.undefined => false
  | JVal.null => true
  | JVal.bool _ => true
  | JVal.num x => x.exact
  | JVal.str _ => true
  | JVal.arr xs => JVal.allPlain xs
  | JVal.obj kvs => JVal.membersPlain kvs && decide ((kvs.map Prod.fst).Nodup)
/-- Every element is plain. -/
def JVal.allPlain : List JVal → Bool
  | [] => true
  | x :: r => JVal.plain x && JVal.allPlain r
/-- Every property value is plain. -/
def JVal.membersPlain : List (String × JVal) → Bool
  | [] => true
  | p :: r => JVal.memberPlain p && JVal.membersPlain r
/-- The property value is plain. -/
def JVal.memberPlain : String × JVal → Bool
  | (_, v) => JVal.plain v
end

mutual
/-- Fuel with which `parseValue` reads the value back from its serialization. -/
def JSON.need : JVal → Nat
  | JVal.arr xs => JSON.needElems xs + 1
  | JVal.obj kvs => JSON.needMembers kvs + 1
  | _ => 1
/-- Fuel for the elements of an array. -/
def JSON.needElems : List JVal → Nat
  | [] => 0
  | x :: r => max (JSON.need x) (JSON.needElems r) + 1
/-- Fuel for the members of an object. -/
def JSON.needMembers : List (String × JVal) → Nat
  | [] => 0
  | p :: r => max (JSON.needMember p) (JSON.needMembers r) + 1
/-- Fuel for one member. -/
def JSON.needMember : String × JVal → Nat
  | (_, v) => JSON.need v
end

/-- The write request `handleSave` makes: a `POST` of the serialized body to the configuration
endpoint. -/
def handleSaveRequest (env : Env) (p : Settings.Props) (st : Settings.State) : Request :=
  { url := p.backendOrigin ++ "/api/guilds/" ++ p.guildId ++ "/config",
    method := "POST", credentials := none,
    headers := [("Content-Type", "application/json"),
      ("X-INTERNAL-TOKEN", Settings.internalToken env)],
    body := JSON.stringify (Settings.handleSaveBody p st) 0 }

/-- Shell state for guild `1` after `load` has read `{"font":"Arial","level":3}`, with the
editor shown. -/
def loadedState : App.State :=
  { guildId := "1",
    config := some "\x7b\n  \"font\": \"Arial\",\n  \"level\": 3\n\x7d",
    parsedConfig := JVal.obj [("font", JVal.str "Arial"), ("level", JVal.num (JNum.int 3))],
    showSettings := true }

/-- A backend that answers every request with status 200 and the body `{}`. -/
def netEmptyReply : Net := fun _ => some { ok := true, body := "\x7b\x7d" }

/-- A backend that answers every request with status 200 and the body `{"x":1e400}`. -/
def netOverflow : Net := fun _ => some { ok := true, body := "\x7b\"x\":1e400\x7d" }

/-- Shell state for guild `1` after `load` has read `{"x":1e400}` and the editor was opened. -/
def overflowState : App.State :=
  App.toggleSettings (App.load env0 netOverflow { guildId := "1" }).state

/-! ## Property lists -/

namespace JVal

theorem lookup_cons_eq (k : String) (b : JVal) (r : List (String × JVal)) :
    ((k, b) :: r).lookup k = some b := by
  simp [List.lookup_cons]

theorem lookup_cons_ne (k a : String) (b : JVal) (r : List (String × JVal)) (h : k ≠ a) :
    ((a, b) :: r).lookup k = r.lookup k := by
  have : (k == a) = false := by simpa using h
  simp [List.lookup_cons, this]

theorem lookup_map_set (kvs : List (String × JVal)) (k k1 : String) (v : JVal) :
    (kvs.map (fun p => if p.1 = k then (k, v) else p)).lookup k1 =
      if k1 = k then (kvs.lookup k).map (fun _ => v) else kvs.lookup k1 := by
  induction kvs with
  | nil => simp
  | cons p r ih =>
    obtain ⟨a, b⟩ := p
    rw [List.map_cons]
    by_cases hak : a = k
    · subst hak
      simp only [if_true]
      by_cases h1 : k1 = a
      · subst h1; simp [lookup_cons_eq]
      · rw [lookup_cons_ne _ _ _ _ h1, ih, lookup_cons_ne _ _ _ _ h1]; simp [h1]
    · simp only [hak, if_false]
      by_cases h1 : k1 = k
      · subst h1
        have h2 : k1 ≠ a := fun h => hak h.symm
        rw [lookup_cons_ne _ _ _ _ h2, ih, lookup_cons_ne _ _ _ _ h2]
      · by_cases h2 : k1 = a
        · subst h2; simp [lookup_cons_eq, h1]
        · rw [lookup_cons_ne _ _ _ _ h2, ih]
          simp [h1, lookup_cons_ne _ _ _ _ h2]

theorem lookup_append_single (kvs : List (String × JVal)) (k k1 : String) (v : JVal) :
    (kvs ++ [(k, v)]).lookup k1 =
      match kvs.lookup k1 with
      | some x => some x
      | none => if k1 = k then some v else none := by
  induction kvs with
  | nil =>
    by_cases h : k1 = k
    · subst h; simp [lookup_cons_eq]
    · simp [lookup_cons_ne _ _ _ _ h, h]
  | cons p r ih =>
    obtain ⟨a, b⟩ := p
    rw [List.cons_append]
    by_cases h : k1 = a
    · subst h; simp [lookup_cons_eq]
    · rw [lookup_cons_ne _ _ _ _ h, ih, lookup_cons_ne _ _ _ _ h]

/-- Reading the property just set gives the value set. -/
theorem lookup_setProp_self (kvs : List (String × JVal)) (k : String) (v : JVal) :
    (setProp kvs k v).lookup k = some v := by
  unfold setProp
  cases h : kvs.lookup k with
  | none => simp [lookup_append_single, h]
  | some x => simp [lookup_map_set, h]

/-- Setting a property leaves the others as they are. -/
theorem lookup_setProp_ne (kvs : List (String × JVal)) (k k1 : String) (v : JVal)
    (h : k1 ≠ k) : (setProp kvs k v).lookup k1 = kvs.lookup k1 := by
  unfold setProp
  cases hk : kvs.lookup k with
  | none =>
    simp only [Option.isSome_none, Bool.false_eq_true, if_false, lookup_append_single, h]
    cases kvs.lookup k1 <;> rfl
  | some x => simp [lookup_map_set, h]

theorem mem_keys_iff_lookup (kvs : List (String × JVal)) (k : String) :
    k ∈ kvs.map Prod.fst ↔ (kvs.lookup k).isSome = true := by
  induction kvs with
  | nil => simp
  | cons p r ih =>
    obtain ⟨a, b⟩ := p
    by_cases h : k = a
    · subst h; simp [lookup_cons_eq]
    · simp [lookup_cons_ne _ _ _ _ h, h, ih]

/-- The property names after a property is set: the old ones and the one set. -/
theorem mem_keys_setProp (kvs : List (String × JVal)) (k k1 : String) (v : JVal) :
    k1 ∈ (setProp kvs k v).map Prod.fst ↔ k1 ∈ kvs.map Prod.fst ∨ k1 = k := by
  rw [mem_keys_iff_lookup, mem_keys_iff_lookup]
  by_cases h : k1 = k
  · subst h; simp [lookup_setProp_self]
  · simp [lookup_setProp_ne _ _ _ _ h, h]

end JVal

/-! ## Settings Editor: the bodies built -/

namespace Settings

/-- An object is truthy, so `cfg` is the configuration passed. -/
theorem cfg_obj (p : Props) (kvs : List (String × JVal)) (h : p.initialConfig = JVal.obj kvs) :
    cfg p = JVal.obj kvs := by
  simp [cfg, h, JVal.or, JVal.truthy]

/-- Reading a name of `cfg` is reading it in the configuration passed: a falsy configuration
has no own property. -/
theorem cfg_lookup (p : Props) (k : String) :
    (cfg p).ownEntries.lookup k = p.initialConfig.ownEntries.lookup k := by
  unfold cfg JVal.or
  cases h : p.initialConfig with
  | undefined => simp [JVal.truthy, JVal.ownEntries]
  | null => simp [JVal.truthy, JVal.ownEntries]
  | bool b => cases b <;> simp [JVal.truthy, JVal.ownEntries]
  | num lit => split <;> simp [JVal.ownEntries]
  | str s =>
    by_cases hs : s = ""
    · subst hs; simp [JVal.truthy, JVal.ownEntries, JVal.indexed]
    · simp [JVal.truthy, hs]
  | arr xs => simp [JVal.truthy]
  | obj kvs => simp [JVal.truthy]

/-- The entries of the body of `handleSave` over any spread list. -/
theorem lookup_saveEntries (s : List (String × JVal)) (w a r f i : JVal) (k : String) :
    (JVal.setProp (JVal.setProp (JVal.setProp (JVal.setProp (JVal.setProp s
      "welcome_message" w) "announcement_channel_id" a) "role_id" r) "font" f) "image" i).lookup k =
    if k = "image" then some i
    else if k = "font" then some f
    else if k = "role_id" then some r
    else if k = "announcement_channel_id" then some a
    else if k = "welcome_message" then some w
    else s.lookup k := by
  by_cases h5 : k = "image"
  · subst h5; simp [JVal.lookup_setProp_self]
  rw [JVal.lookup_setProp_ne _ _ _ _ h5, if_neg h5]
  by_cases h4 : k = "font"
  · subst h4; simp [JVal.lookup_setProp_self]
  rw [JVal.lookup_setProp_ne _ _ _ _ h4, if_neg h4]
  by_cases h3 : k = "role_id"
  · subst h3; simp [JVal.lookup_setProp_self]
  rw [JVal.lookup_setProp_ne _ _ _ _ h3, if_neg h3]
  by_cases h2 : k = "announcement_channel_id"
  · subst h2; simp [JVal.lookup_setProp_self]
  rw [JVal.lookup_setProp_ne _ _ _ _ h2, if_neg h2]
  by_cases h1 : k = "welcome_message"
  · subst h1; simp [JVal.lookup_setProp_self]
  rw [JVal.lookup_setProp_ne _ _ _ _ h1, if_neg h1]

theorem mem_knownKeys (k : String) :
    k ∈ knownKeys ↔ k = "welcome_message" ∨ k = "announcement_channel_id" ∨ k = "role_id" ∨
      k = "font" ∨ k = "image" := by
  simp [knownKeys]

/-- The names of the body of `handleSave` over any spread list. -/
theorem mem_keys_saveEntries (s : List (String × JVal)) (w a r f i : JVal) (k : String) :
    k ∈ (JVal.setProp (JVal.setProp (JVal.setProp (JVal.setProp (JVal.setProp s
      "welcome_message" w) "announcement_channel_id" a) "role_id" r) "font" f) "image" i).map
        Prod.fst ↔ k ∈ s.map Prod.fst ∨ k ∈ knownKeys := by
  simp only [JVal.mem_keys_setProp, mem_knownKeys]
  tauto

theorem handleSaveBody_eq (p : Props) (st : State) :
    handleSaveBody p st = JVal.obj (JVal.setProp (JVal.setProp (JVal.setProp (JVal.setProp
      (JVal.setProp (cfg p).ownEntries "welcome_message" st.welcome)
      "announcement_channel_id" st.announcementChannel) "role_id" st.roleId) "font" st.font)
      "image" st.imagePath) := rfl

/-- The body of `handleSave` read at any name. -/
theorem handleSaveBody_get (p : Props) (st : State) (k : String) :
    (handleSaveBody p st).get k =
      if k = "image" then st.imagePath
      else if k = "font" then st.font
      else if k = "role_id" then st.roleId
      else if k = "announcement_channel_id" then st.announcementChannel
      else if k = "welcome_message" then st.welcome
      else (cfg p).get k := by
  rw [handleSaveBody_eq]
  unfold JVal.get
  simp only [JVal.ownEntries]
  rw [lookup_saveEntries]
  split_ifs <;> rfl

/-- The one request `handleSave` makes carries the serialized body. -/
theorem handleSave_requests (env : Env) (net : Net) (p : Props) (st : State) :
    (handleSave env net p st).requests.map Request.body =
      [JSON.stringify (handleSaveBody p st) 0] := by
  unfold handleSave
  simp only
  split
  · rfl
  · split <;> rfl

end Settings

/-- C1: the body `handleSave` posts for a configuration object `cfg` keeps every key of `cfg`
outside the five known ones with the value `cfg` has for it, binds the five known keys to the
current field values, and has no key besides those of `cfg` and the five known ones. -/
theorem handleSave_body_merges (env : Env) (net : Net) (p : Settings.Props)
    (st : Settings.State) (kvs : List (String × JVal)) :
    ((Settings.handleSave env net { p with initialConfig := JVal.obj kvs } st).requests.map
        Request.body =
      [JSON.stringify (Settings.handleSaveBody { p with initialConfig := JVal.obj kvs } st) 0]) ∧
    (∀ k, k ∈ (JVal.obj kvs).keys → k ∉ knownKeys →
      k ∈ (Settings.handleSaveBody { p with initialConfig := JVal.obj kvs } st).keys ∧
      (Settings.handleSaveBody { p with initialConfig := JVal.obj kvs } st).get k =
        (JVal.obj kvs).get k) ∧
    ((Settings.handleSaveBody { p with initialConfig := JVal.obj kvs } st).get "welcome_message"
        = st.welcome ∧
      (Settings.handleSaveBody { p with initialConfig := JVal.obj kvs } st).get
        "announcement_channel_id" = st.announcementChannel ∧
      (Settings.handleSaveBody { p with initialConfig := JVal.obj kvs } st).get "role_id"
        = st.roleId ∧
      (Settings.handleSaveBody { p with initialConfig := JVal.obj kvs } st).get "font"
        = st.font ∧
      (Settings.handleSaveBody { p with initialConfig := JVal.obj kvs } st).get "image"
        = st.imagePath) ∧
    (∀ k, k ∈ knownKeys →
      k ∈ (Settings.handleSaveBody { p with initialConfig := JVal.obj kvs } st).keys) ∧
    (∀ k, k ∈ (Settings.handleSaveBody { p with initialConfig := JVal.obj kvs } st).keys →
      k ∈ (JVal.obj kvs).keys ∨ k ∈ knownKeys) := by
  have hc : Settings.cfg { p with initialConfig := JVal.obj kvs } = JVal.obj kvs :=
    Settings.cfg_obj _ kvs rfl
  have hk : ∀ k, k ∈ (Settings.handleSaveBody { p with initialConfig := JVal.obj kvs } st).keys ↔
      k ∈ (JVal.obj kvs).keys ∨ k ∈ knownKeys := by
    intro k
    rw [Settings.handleSaveBody_eq, hc]
    exact Settings.mem_keys_saveEntries kvs _ _ _ _ _ k
  refine ⟨Settings.handleSave_requests _ _ _ _, ?_, ?_, ?_, ?_⟩
  · intro k hin hnot
    refine ⟨(hk k).2 (Or.inl hin), ?_⟩
    rw [Settings.handleSaveBody_get, hc]
    rw [Settings.mem_knownKeys] at hnot
    push_neg at hnot
    simp [hnot.1, hnot.2.1, hnot.2.2.1, hnot.2.2.2.1, hnot.2.2.2.2]
  · simp [Settings.handleSaveBody_get]
  · intro k hin
    exact (hk k).2 (Or.inr hin)
  · intro k hin
    exact (hk k).1 hin

namespace Settings

/-- The one request `requestPreview` makes carries the serialized body. -/
theorem requestPreview_requests (env : Env) (net : Net) (p : Props) (st : State) :
    (requestPreview env net p st).requests.map Request.body =
      [JSON.stringify (requestPreviewBody st) 0] := by
  unfold requestPreview
  simp only
  split
  · rfl
  · split <;> rfl

/-- The one request `savePreview` makes carries the serialized body. -/
theorem savePreview_requests (env : Env) (net : Net) (p : Props) (st : State) :
    (savePreview env net p st).requests.map Request.body =
      [JSON.stringify (savePreviewBody st) 0] := by
  unfold savePreview
  simp only
  split
  · rfl
  · split
    · split <;> rfl
    · rfl

/-- The body of `requestPreview` written out. -/
theorem requestPreviewBody_eq (st : State) :
    requestPreviewBody st =
      JVal.obj [("welcome_message", st.welcome),
        ("announcement_channel_id", st.announcementChannel),
        ("role_id", st.roleId), ("font", st.font), ("image", st.imagePath)] := by
  simp [requestPreviewBody, objectLiteral, JVal.setProp, List.lookup]

end Settings

/-- C8: the body `requestPreview` posts has exactly the five keys `welcome_message`,
`announcement_channel_id`, `role_id`, `font` and `image`, bound to the current field values,
whatever the original configuration holds; `savePreview` posts the same body in the same
state; and the body of `handleSave` has the same five entries. -/
theorem preview_body_five_fields (env : Env) (net : Net) (p : Settings.Props)
    (st : Settings.State) :
    ((Settings.requestPreview env net p st).requests.map Request.body =
      [JSON.stringify (Settings.requestPreviewBody st) 0]) ∧
    ((Settings.savePreview env net p st).requests.map Request.body =
      [JSON.stringify (Settings.savePreviewBody st) 0]) ∧
    Settings.requestPreviewBody st =
      JVal.obj [("welcome_message", st.welcome),
        ("announcement_channel_id", st.announcementChannel),
        ("role_id", st.roleId), ("font", st.font), ("image", st.imagePath)] ∧
    (Settings.requestPreviewBody st).keys = knownKeys ∧
    (∀ k, k ∈ p.initialConfig.keys → k ∉ knownKeys → k ∉ (Settings.requestPreviewBody st).keys) ∧
    Settings.savePreviewBody st = Settings.requestPreviewBody st ∧
    (∀ k, k ∈ knownKeys →
      (Settings.handleSaveBody p st).get k = (Settings.requestPreviewBody st).get k) := by
  have hk : (Settings.requestPreviewBody st).keys = knownKeys := by
    rw [Settings.requestPreviewBody_eq]; rfl
  refine ⟨Settings.requestPreview_requests _ _ _ _, Settings.savePreview_requests _ _ _ _,
    Settings.requestPreviewBody_eq st, hk, ?_, rfl, ?_⟩
  · intro k _ hnot
    rw [hk]; exact hnot
  · intro k hin
    rw [Settings.handleSaveBody_get, Settings.requestPreviewBody_eq]
    rw [Settings.mem_knownKeys] at hin
    rcases hin with h | h | h | h | h <;> subst h <;> simp [JVal.get, JVal.ownEntries, List.lookup]

namespace Settings

/-- Each state hook starts from the `||` default of its configuration name. -/
theorem init_field (p : Props) (k : String) :
    ((cfg p).get k).or (JVal.str "") = seeded p.initialConfig k := by
  unfold JVal.get seeded
  rw [cfg_lookup]
  cases p.initialConfig.ownEntries.lookup k with
  | none => simp [JVal.or, JVal.truthy]
  | some v => simp [JVal.or]

end Settings

/-- C9 (amended): when the editor opens on a configuration (or on none), each of the five
fields starts from the stored value of its key when the key is present with a truthy value,
and from the empty string when the key is absent or its value is falsy (`null`, `false`, zero,
the empty string). -/
theorem init_seeds_fields (p : Settings.Props) :
    (Settings.init p).welcome = seeded p.initialConfig "welcome_message" ∧
    (Settings.init p).announcementChannel = seeded p.initialConfig "announcement_channel_id" ∧
    (Settings.init p).roleId = seeded p.initialConfig "role_id" ∧
    (Settings.init p).font = seeded p.initialConfig "font" ∧
    (Settings.init p).imagePath = seeded p.initialConfig "image" ∧
    (Settings.init p).channels = [] ∧ (Settings.init p).roles = [] :=
  ⟨Settings.init_field p _, Settings.init_field p _, Settings.init_field p _,
    Settings.init_field p _, Settings.init_field p _, rfl, rfl⟩

/-- C9 (as stated) fails: on the configuration `{"role_id": null}` the key `role_id` is
present with the value `null`, and the role field starts from the empty string, not from the
stored value. -/
theorem init_present_key_not_seeded :
    nullRoleProps.initialConfig.has "role_id" = true ∧
    nullRoleProps.initialConfig.get "role_id" = JVal.null ∧
    (Settings.init nullRoleProps).roleId = JVal.str "" ∧
    (Settings.init nullRoleProps).roleId ≠ nullRoleProps.initialConfig.get "role_id" := by
  refine ⟨rfl, rfl, rfl, ?_⟩
  intro h
  have h1 : (Settings.init nullRoleProps).roleId = JVal.str "" := rfl
  have h2 : nullRoleProps.initialConfig.get "role_id" = JVal.null := rfl
  rw [h1, h2] at h
  cases h

/-! ## Shell: `load` and `save` -/

/-- C3: with a guild id entered and a raw text that does not parse as JSON, `save` makes no
request, raises exactly the notice `Invalid JSON`, and leaves the Shell state as it is. -/
theorem save_unparseable_text (env : Env) (net : Net) (s : App.State)
    (hg : s.guildId ≠ "") (hp : JSON.parseText s.config = none) :
    (App.save env net s).requests = [] ∧
    (App.save env net s).alerts = ["Invalid JSON"] ∧
    (App.save env net s).state = s := by
  unfold App.save
  rw [if_neg hg, hp]
  exact ⟨rfl, rfl, rfl⟩

/-- C3 at guild `1` with the raw text `{`. -/
theorem save_unparseable_text_witness :
    brokenTextState.guildId ≠ "" ∧
    JSON.parseText brokenTextState.config = none ∧
    (App.save env0 netFont brokenTextState).requests = [] ∧
    (App.save env0 netFont brokenTextState).alerts = ["Invalid JSON"] ∧
    (App.save env0 netFont brokenTextState).state = brokenTextState :=
  ⟨by decide, by rfl, save_unparseable_text env0 netFont brokenTextState (by decide) (by rfl)⟩

/-- C4: with the empty guild id, `load` and `save` make no request, raise no notice and leave
the raw text, the parsed configuration and the editor's visibility as they are, whatever the
raw text is. -/
theorem empty_guild_is_inert (env : Env) (net : Net) (s : App.State) :
    (App.load env net { s with guildId := "" }).requests = [] ∧
    (App.load env net { s with guildId := "" }).alerts = [] ∧
    (App.load env net { s with guildId := "" }).state = { s with guildId := "" } ∧
    (App.save env net { s with guildId := "" }).requests = [] ∧
    (App.save env net { s with guildId := "" }).alerts = [] ∧
    (App.save env net { s with guildId := "" }).state = { s with guildId := "" } := by
  have hl : App.load env net { s with guildId := "" } = { state := { s with guildId := "" } } := by
    unfold App.load
    rw [if_pos rfl]
  have hs : App.save env net { s with guildId := "" } = { state := { s with guildId := "" } } := by
    unfold App.save
    rw [if_pos rfl]
  rw [hl, hs]
  exact ⟨rfl, rfl, rfl, rfl, rfl, rfl⟩

/-- For a raw text that parses, `save` makes the one write request with the serialized value,
and the notice follows what `fetch` settles with. -/
theorem save_parseable_text (env : Env) (net : Net) (s : App.State) (body : JVal)
    (hg : s.guildId ≠ "") (hp : JSON.parseText s.config = some body) :
    (App.save env net s).requests = [saveRequest env s body] ∧
    (App.save env net s).state = s ∧
    (App.save env net s).alerts =
      (match net (saveRequest env s body) with
        | some res => if res.ok then ["Saved"] else ["Save failed"]
        | none => ["Invalid JSON"]) := by
  have key : App.save env net s =
      (match net (saveRequest env s body) with
        | none =>
          { state := s, requests := [saveRequest env s body], alerts := ["Invalid JSON"] }
        | some res =>
          if res.ok then
            { state := s, requests := [saveRequest env s body], alerts := ["Saved"] }
          else
            { state := s, requests := [saveRequest env s body], alerts := ["Save failed"] }) := by
    unfold App.save
    rw [if_neg hg, hp]
    rfl
  rw [key]
  cases net (saveRequest env s body) with
  | none => exact ⟨rfl, rfl, rfl⟩
  | some res => cases h : res.ok <;> simp [h]

/-- C5, where the code departs from it: for guild `1` and the raw text `{}`, which parses,
against a backend that cannot be reached, `save` makes its one write request and then raises
`Invalid JSON`, not `Save failed`. -/
theorem save_network_error_notice :
    JSON.parseText emptyObjectState.config = some (JVal.obj []) ∧
    (App.save env0 netDown emptyObjectState).requests =
      [saveRequest env0 emptyObjectState (JVal.obj [])] ∧
    netDown (saveRequest env0 emptyObjectState (JVal.obj [])) = none ∧
    (App.save env0 netDown emptyObjectState).alerts = ["Invalid JSON"] := by
  refine ⟨by rfl, ?_, rfl, ?_⟩
  · exact (save_parseable_text env0 netDown emptyObjectState (JVal.obj []) (by decide)
      (by rfl)).1
  · exact (save_parseable_text env0 netDown emptyObjectState (JVal.obj []) (by decide)
      (by rfl)).2.2

/-- C6, where the code departs from it: for guild `1` and the raw text `{}`, the read request
of `load` has the option `credentials: 'include'`, and the write request of `save` to the same
endpoint has no `credentials` option. -/
theorem save_request_without_credentials :
    (App.load env0 netFont emptyObjectState).requests.map Request.credentials =
      [some "include"] ∧
    (App.save env0 netFont emptyObjectState).requests.map Request.url =
      ["http://127.0.0.1:8000/api/guilds/1/config"] ∧
    (App.save env0 netFont emptyObjectState).requests.map Request.method = ["POST"] ∧
    (App.save env0 netFont emptyObjectState).requests.map Request.credentials = [none] := by
  have h := (save_parseable_text env0 netFont emptyObjectState (JVal.obj []) (by decide)
      (by rfl)).1
  rw [h]
  refine ⟨?_, by decide, by decide, by decide⟩
  unfold App.load
  rw [if_neg (by decide)]
  simp only
  split
  · rfl
  · split <;> rfl

/-- C10: with a guild id entered, `load` makes the one credentialed read; when the response
body parses to `d` the raw text becomes the 2-space serialization of `d` and the parsed state
becomes `d`; when the request fails at the network level, or the body does not parse, the
state is left as it was; no notice is raised. -/
theorem load_updates_both_or_neither (env : Env) (net : Net) (s : App.State)
    (hg : s.guildId ≠ "") :
    (App.load env net s).requests = [loadRequest env s] ∧
    (App.load env net s).alerts = [] ∧
    (∀ res d, net (loadRequest env s) = some res → JSON.parse res.body = some d →
      (App.load env net s).state =
        { s with config := JSON.stringify d 2, parsedConfig := d } ∧
      (App.load env net s).rejected = false) ∧
    (net (loadRequest env s) = none →
      (App.load env net s).state = s ∧ (App.load env net s).rejected = true) ∧
    (∀ res, net (loadRequest env s) = some res → JSON.parse res.body = none →
      (App.load env net s).state = s ∧ (App.load env net s).rejected = true) := by
  have key : App.load env net s =
      (match net (loadRequest env s) with
        | none => { state := s, requests := [loadRequest env s], rejected := true }
        | some res =>
          match JSON.parse res.body with
          | none => { state := s, requests := [loadRequest env s], rejected := true }
          | some data =>
            { state := { s with config := JSON.stringify data 2, parsedConfig := data },
              requests := [loadRequest env s] }) := by
    unfold App.load
    rw [if_neg hg]
    rfl
  rw [key]
  refine ⟨?_, ?_, ?_, ?_, ?_⟩
  · split
    · rfl
    · split <;> rfl
  · split
    · rfl
    · split <;> rfl
  · intro res d hn hd
    rw [hn]
    simp [hd]
  · intro hn
    rw [hn]
    exact ⟨rfl, rfl⟩
  · intro res hn hd
    rw [hn]
    simp [hd]

/-- C10 at guild `1` against a backend that answers `{"font":"Arial"}`. -/
theorem load_updates_both_or_neither_witness :
    emptyObjectState.guildId ≠ "" ∧
    (App.load env0 netFont emptyObjectState).requests = [loadRequest env0 emptyObjectState] ∧
    (App.load env0 netFont emptyObjectState).state.parsedConfig =
      JVal.obj [("font", JVal.str "Arial")] ∧
    (App.load env0 netFont emptyObjectState).state.config =
      some "\x7b\n  \"font\": \"Arial\"\n\x7d" := by
  have h := load_updates_both_or_neither env0 netFont emptyObjectState (by decide)
  refine ⟨by decide, h.1, ?_, ?_⟩
  · rw [(h.2.2.1 _ (JVal.obj [("font", JVal.str "Arial")]) rfl (by rfl)).1]
  · rw [(h.2.2.1 _ (JVal.obj [("font", JVal.str "Arial")]) rfl (by rfl)).1]
    rfl

/-! ## Settings Editor: reference data -/

namespace Settings

/-- One `try` block of the reference-data effect, as a function of what the fetch settled
with. -/
theorem fetchedOptions_some (res : Response) :
    fetchedOptions (some res) =
      if res.ok then
        match res.json with
        | none => none
        | some j => mapOptions j
      else none := by
  unfold fetchedOptions Response.json
  by_cases hok : res.ok = true
  · simp only [hok, if_true]
    cases JSON.parse res.body with
    | none => rfl
    | some j => cases j <;> rfl
  · rw [if_neg hok]
    simp only [if_neg hok]

/-- The first `try` block: the channel options become what the fetch delivers. -/
theorem channels_step (settled : Option Response) (st : State) :
    (match settled with
      | none => st
      | some ch =>
        if ch.ok then
          match ch.json with
          | none => st
          | some jc =>
            match mapOptions jc with
            | none => st
            | some items => { st with channels := items }
        else st) =
      { st with channels := (fetchedOptions settled).getD st.channels } := by
  cases settled with
  | none => rfl
  | some ch =>
    rw [fetchedOptions_some]
    by_cases hok : ch.ok = true
    · simp only [hok, if_true]
      cases ch.json with
      | none => rfl
      | some jc =>
        simp only
        cases mapOptions jc <;> rfl
    · simp only [hok, if_false]
      rfl

/-- The second `try` block: the role options become what the fetch delivers. -/
theorem roles_step (settled : Option Response) (st : State) :
    (match settled with
      | none => st
      | some r =>
        if r.ok then
          match r.json with
          | none => st
          | some jr =>
            match mapOptions jr with
            | none => st
            | some items => { st with roles := items }
        else st) =
      { st with roles := (fetchedOptions settled).getD st.roles } := by
  cases settled with
  | none => rfl
  | some ch =>
    rw [fetchedOptions_some]
    by_cases hok : ch.ok = true
    · simp only [hok, if_true]
      cases ch.json with
      | none => rfl
      | some jc =>
        simp only
        cases mapOptions jc <;> rfl
    · simp only [hok, if_false]
      rfl

/-- The reference-data effect in one piece. -/
theorem loadReferenceData_eq (env : Env) (net : Net) (p : Props) (st : State)
    (hg : p.guildId ≠ "") :
    loadReferenceData env net p st =
      { state :=
          { st with
            channels := (fetchedOptions (net (channelsRequest env p))).getD st.channels,
            roles := (fetchedOptions (net (rolesRequest env p))).getD st.roles },
        requests := [channelsRequest env p, rolesRequest env p] } := by
  unfold loadReferenceData
  rw [if_neg hg]
  simp only [channels_step, roles_step]

/-- The elements mapped are the pairs `(String(c.id), c.name || c.id)`. -/
theorem mapItems_pairs (xs : List JVal) (items : List SelectItem)
    (h : mapItems xs = some items) :
    items.map (fun i => (some i.value, i.label)) =
      xs.map (fun c => ((c.get "id").toJSString, (c.get "name").or (c.get "id"))) := by
  induction xs generalizing items with
  | nil =>
    simp only [mapItems, Option.some.injEq] at h
    subst h; rfl
  | cons c r ih =>
    unfold mapItems at h
    cases hc : toItem c with
    | none => simp [hc] at h
    | some i =>
      cases hr : mapItems r with
      | none => simp [hc, hr] at h
      | some is =>
        simp only [hc, hr, Option.some.injEq] at h
        subst h
        simp only [List.map_cons, ih is hr]
        congr 1
        unfold toItem at hc
        split at hc
        · cases hc
        · cases hc
        · cases hs : (c.get "id").toJSString with
          | none => simp [hs] at hc
          | some v =>
            simp only [hs, Option.some.injEq] at hc
            subst hc; rfl

end Settings

/-- C7: in the reference-data load for a guild id that is not empty, both list requests are
made whatever the other one settles with, and no notice is raised; the channel options become
what the channel fetch delivers and stay as they were (empty at first) when it fails (network
error, status that is not a success, body that is not JSON or cannot be mapped), and the role
options likewise depend on the role fetch alone; a delivered list is the list of pairs
`(String(id), name || id)` of the response's elements. -/
theorem reference_lists_independent (env : Env) (net : Net) (p : Settings.Props)
    (st : Settings.State) (hg : p.guildId ≠ "") :
    (Settings.loadReferenceData env net p st).requests =
      [Settings.channelsRequest env p, Settings.rolesRequest env p] ∧
    (Settings.loadReferenceData env net p st).alerts = [] ∧
    ((Settings.init p).channels = [] ∧ (Settings.init p).roles = []) ∧
    (Settings.loadReferenceData env net p st).state.channels =
      (fetchedOptions (net (Settings.channelsRequest env p))).getD st.channels ∧
    (Settings.loadReferenceData env net p st).state.roles =
      (fetchedOptions (net (Settings.rolesRequest env p))).getD st.roles ∧
    (∀ res xs items, net (Settings.rolesRequest env p) = some res → res.ok = true →
      JSON.parse res.body = some (JVal.arr xs) → Settings.mapItems xs = some items →
      (Settings.loadReferenceData env net p st).state.roles = items ∧
      items.map (fun i => (some i.value, i.label)) =
        xs.map (fun c => ((c.get "id").toJSString, (c.get "name").or (c.get "id")))) ∧
    (∀ res xs items, net (Settings.channelsRequest env p) = some res → res.ok = true →
      JSON.parse res.body = some (JVal.arr xs) → Settings.mapItems xs = some items →
      (Settings.loadReferenceData env net p st).state.channels = items ∧
      items.map (fun i => (some i.value, i.label)) =
        xs.map (fun c => ((c.get "id").toJSString, (c.get "name").or (c.get "id")))) := by
  rw [Settings.loadReferenceData_eq env net p st hg]
  have hdel : ∀ (req : Request) (res : Response) (xs : List JVal)
      (items : List Settings.SelectItem), net req = some res → res.ok = true →
      JSON.parse res.body = some (JVal.arr xs) → Settings.mapItems xs = some items →
      fetchedOptions (net req) = some items := by
    intro req res xs items hn hok hb hm
    rw [hn]
    simp [fetchedOptions, hok, hb, hm]
  refine ⟨rfl, rfl, ⟨rfl, rfl⟩, rfl, rfl, ?_, ?_⟩
  · intro res xs items hn hok hb hm
    refine ⟨?_, Settings.mapItems_pairs xs items hm⟩
    simp only [hdel _ res xs items hn hok hb hm, Option.getD_some]
  · intro res xs items hn hok hb hm
    refine ⟨?_, Settings.mapItems_pairs xs items hm⟩
    simp only [hdel _ res xs items hn hok hb hm, Option.getD_some]

/-- C7 at guild `1`: the channel fetch is rejected, and the role list is still requested and
fills the role options. -/
theorem reference_lists_independent_witness :
    plainProps.guildId ≠ "" ∧
    netRolesOnly (Settings.channelsRequest env0 plainProps) = none ∧
    (Settings.loadReferenceData env0 netRolesOnly plainProps
      (Settings.init plainProps)).requests.map Request.url =
      ["http://127.0.0.1:8000/api/guilds/1/channels",
       "http://127.0.0.1:8000/api/guilds/1/roles"] ∧
    (Settings.loadReferenceData env0 netRolesOnly plainProps
      (Settings.init plainProps)).state.channels = [] ∧
    (Settings.loadReferenceData env0 netRolesOnly plainProps
      (Settings.init plainProps)).state.roles =
      [{ value := "7", label := JVal.str "Admin" }, { value := "8", label := JVal.str "8" }] := by
  have h := reference_lists_independent env0 netRolesOnly plainProps
    (Settings.init plainProps) (by decide)
  refine ⟨by decide, by rfl, ?_, ?_, ?_⟩
  · rw [h.1]; rfl
  · rw [h.2.2.2.1]; rfl
  · rw [h.2.2.2.2.1]; rfl

/-! ## JSON text: strings -/

namespace JSON

theorem control_escape_value : ∀ n, n < 32 →
    hex4 '0' '0' (hexDigit (n / 16)) (hexDigit (n % 16)) = some n := by
  decide

theorem push_some (c : Char) (s r : List Char) : push c (some (s, r)) = some (c :: s, r) := rfl

/-- Reading back one quoted character. -/
theorem parseStringBody_quoteChar (c : Char) (t : List Char) :
    parseStringBody none (quoteChar c ++ t) = push c (parseStringBody none t) := by
  unfold quoteChar
  split_ifs with h1 h2 h3 h4 h5 h6 h7 h8
  · subst h1; rw [parseStringBody.eq_def]; simp [unescape, flush]
  · subst h2; rw [parseStringBody.eq_def]; simp [unescape, flush]
  · subst h3; rw [parseStringBody.eq_def]; simp [unescape, flush]
  · subst h4; rw [parseStringBody.eq_def]; simp [unescape, flush]
  · subst h5; rw [parseStringBody.eq_def]; simp [unescape, flush]
  · subst h6; rw [parseStringBody.eq_def]; simp [unescape, flush]
  · subst h7; rw [parseStringBody.eq_def]; simp [unescape, flush]
  · have hv := control_escape_value c.toNat h8
    have hlo : ¬ (0xDC00 ≤ c.toNat ∧ c.toNat < 0xE000) := by omega
    have hhi : ¬ (0xD800 ≤ c.toNat ∧ c.toNat < 0xDC00) := by omega
    simp only [List.cons_append, List.nil_append]
    rw [parseStringBody.eq_def]
    simp only [show ('\\' : Char) ≠ '"' by decide, if_false, if_true, hv, hlo, hhi, flush]
    rw [Char.ofNat_toNat]
  · simp only [List.cons_append, List.nil_append]
    rw [parseStringBody.eq_def]
    simp only [h1, h2, h8, if_false, flush]

/-- Reading back a quoted string, up to its closing quote. -/
theorem parseStringBody_quoteBody (s rest : List Char) :
    parseStringBody none (quoteBody s ++ '"' :: rest) = some (s, rest) := by
  induction s with
  | nil => rw [parseStringBody.eq_def]; simp [quoteBody, flush]
  | cons c r ih =>
    simp only [quoteBody, List.append_assoc]
    rw [parseStringBody_quoteChar, ih, push_some]

end JSON

/-! ## JSON text: numbers -/

namespace JSON

theorem stops_digit (rest : List Char) (h : stops rest = true) :
    ∀ c r, rest = c :: r → isDigit c = false := by
  intro c r hr
  subst hr
  simp only [stops, Bool.and_eq_true, Bool.not_eq_true', decide_eq_true_eq] at h
  exact h.1.1.1

theorem takeWhile_append_stops (l rest : List Char) (h : stops rest = true) :
    (l ++ rest).takeWhile isDigit = l.takeWhile isDigit := by
  induction l with
  | nil =>
    cases rest with
    | nil => rfl
    | cons c r => simp [List.takeWhile, stops_digit _ h c r rfl]
  | cons c l ih =>
    simp only [List.cons_append, List.takeWhile]
    cases isDigit c with
    | true => simp [ih]
    | false => rfl

theorem dropWhile_append_stops (l rest : List Char) (h : stops rest = true) :
    (l ++ rest).dropWhile isDigit = l.dropWhile isDigit ++ rest := by
  induction l with
  | nil =>
    cases rest with
    | nil => rfl
    | cons c r => simp [List.dropWhile, stops_digit _ h c r rfl]
  | cons c l ih =>
    simp only [List.cons_append, List.dropWhile]
    cases isDigit c with
    | true => simp [ih]
    | false => rfl

theorem digits1_append (acc l rest t r : List Char) (h : stops rest = true)
    (hl : digits1 acc l = some (t, r)) : digits1 acc (l ++ rest) = some (t, r ++ rest) := by
  unfold digits1 at hl ⊢
  rw [takeWhile_append_stops l rest h, dropWhile_append_stops l rest h]
  split at hl
  · cases hl
  · rename_i hne
    rw [if_neg hne]
    simp only [Option.some.injEq, Prod.mk.injEq] at hl
    rw [← hl.1, ← hl.2]

theorem parseExp_append (acc l rest t r : List Char) (h : stops rest = true)
    (hl : parseExp acc l = some (t, r)) : parseExp acc (l ++ rest) = some (t, r ++ rest) := by
  cases l with
  | nil =>
    simp only [parseExp, Option.some.injEq, Prod.mk.injEq] at hl
    rw [← hl.1, ← hl.2]
    cases rest with
    | nil => rfl
    | cons c r1 =>
      simp only [stops, Bool.and_eq_true, Bool.not_eq_true', decide_eq_true_eq] at h
      simp only [List.nil_append, parseExp]
      rw [if_neg (by simp [h.1.2, h.2])]
  | cons e l1 =>
    simp only [List.cons_append, parseExp] at hl ⊢
    split at hl
    · rename_i he
      rw [if_pos he]
      cases l1 with
      | nil => simp at hl
      | cons s r1 =>
        simp only [List.cons_append] at hl ⊢
        split at hl
        · rename_i hs
          rw [if_pos hs]
          exact digits1_append _ _ _ _ _ h hl
        · rename_i hs
          rw [if_neg hs]
          exact digits1_append _ (s :: r1) _ _ _ h hl
    · rename_i he
      rw [if_neg he]
      simp only [Option.some.injEq, Prod.mk.injEq] at hl
      rw [← hl.1, ← hl.2]
      rfl

theorem parseFrac_append (acc l rest t r : List Char) (h : stops rest = true)
    (hl : parseFrac acc l = some (t, r)) : parseFrac acc (l ++ rest) = some (t, r ++ rest) := by
  cases l with
  | nil =>
    simp only [parseFrac, Option.some.injEq, Prod.mk.injEq] at hl
    rw [← hl.1, ← hl.2]
    cases rest with
    | nil => rfl
    | cons c r1 =>
      have hc := h
      simp only [stops, Bool.and_eq_true, Bool.not_eq_true', decide_eq_true_eq] at hc
      simp only [List.nil_append, parseFrac]
      rw [if_neg hc.1.1.2]
      exact parseExp_append acc [] (c :: r1) acc [] h rfl
  | cons c l1 =>
    simp only [List.cons_append, parseFrac] at hl ⊢
    split at hl
    · rename_i hc
      rw [if_pos hc]
      cases hd : digits1 (acc ++ ['.']) l1 with
      | none => simp [hd] at hl
      | some p =>
        obtain ⟨a1, r1⟩ := p
        simp only [hd] at hl
        rw [digits1_append _ _ _ _ _ h hd]
        exact parseExp_append _ _ _ _ _ h hl
    · rename_i hc
      rw [if_neg hc]
      exact parseExp_append acc (c :: l1) _ _ _ h hl

theorem parseInt_append (acc l rest t r : List Char) (h : stops rest = true)
    (hl : parseInt acc l = some (t, r)) : parseInt acc (l ++ rest) = some (t, r ++ rest) := by
  cases l with
  | nil => simp [parseInt] at hl
  | cons d l1 =>
    simp only [List.cons_append, parseInt] at hl ⊢
    split at hl
    · rename_i hd
      rw [if_pos hd]
      exact parseFrac_append _ _ _ _ _ h hl
    · rename_i hd
      rw [if_neg hd]
      split at hl
      · rename_i hdig
        rw [if_pos hdig, takeWhile_append_stops l1 rest h, dropWhile_append_stops l1 rest h]
        exact parseFrac_append _ _ _ _ _ h hl
      · cases hl

/-- A number literal is read back whole when what follows cannot continue it. -/
theorem parseNumber_append (l rest t r : List Char) (h : stops rest = true)
    (hl : parseNumber l = some (t, r)) : parseNumber (l ++ rest) = some (t, r ++ rest) := by
  cases l with
  | nil => simp [parseNumber] at hl
  | cons c l1 =>
    simp only [List.cons_append, parseNumber] at hl ⊢
    split at hl
    · rename_i hc
      rw [if_pos hc]
      exact parseInt_append _ _ _ _ _ h hl
    · rename_i hc
      rw [if_neg hc]
      exact parseInt_append [] (c :: l1) _ _ _ h hl

/-- A number literal starts with `-` or a digit. -/
theorem parseNumber_head (c : Char) (l t r : List Char)
    (hl : parseNumber (c :: l) = some (t, r)) : c = '-' ∨ isDigit c = true := by
  simp only [parseNumber] at hl
  split at hl
  · rename_i hc; exact Or.inl hc
  · simp only [parseInt] at hl
    split at hl
    · rename_i hd; subst hd; exact Or.inr (by decide)
    · split at hl
      · rename_i hdig; exact Or.inr hdig
      · cases hl

end JSON


/-! ## JSON text: integers -/

namespace JSON

theorem digitChar_facts : ∀ d, d < 10 →
    isDigit (JNum.digitChar d) = true ∧ (JNum.digitChar d).toNat - 48 = d ∧
    (0 < d → JNum.digitChar d ≠ '0') ∧ JNum.digitChar d ≠ '-' := by
  decide

theorem readNat_snoc (ds : List Char) (c : Char) :
    readNat (ds ++ [c]) = 10 * readNat ds + (c.toNat - 48) := by
  simp [readNat, List.foldl_append]

/-- The digits `digitsAux` puts in front of `acc`: digits only, with the value `n`, and no
leading zero unless `n` is zero. -/
theorem digitsAux_spec : ∀ (fuel n : Nat) (acc : List Char), n < fuel →
    ∃ c r, JNum.digitsAux fuel n acc = (c :: r) ++ acc ∧ (c :: r).all isDigit = true ∧
      readNat (c :: r) = n ∧ (0 < n → c ≠ '0') ∧ c ≠ '-' := by
  intro fuel
  induction fuel with
  | zero => intro n acc h; omega
  | succ f ih =>
    intro n acc h
    by_cases hn : n < 10
    · have hd := digitChar_facts n hn
      refine ⟨JNum.digitChar n, [], ?_, ?_, ?_, hd.2.2.1, hd.2.2.2⟩
      · simp [JNum.digitsAux, hn]
      · simp [hd.1]
      · simp [readNat, hd.2.1]
    · have hlt : n / 10 < f := by omega
      obtain ⟨c, r, he, hall, hval, hlead, hminus⟩ :=
        ih (n / 10) (JNum.digitChar (n % 10) :: acc) hlt
      have hd := digitChar_facts (n % 10) (Nat.mod_lt _ (by decide))
      refine ⟨c, r ++ [JNum.digitChar (n % 10)], ?_, ?_, ?_, ?_, hminus⟩
      · simp only [JNum.digitsAux, hn, if_false, he]
        simp
      · simp only [List.all_cons, List.all_append, List.all_nil, Bool.and_true,
          Bool.and_eq_true] at hall ⊢
        exact ⟨hall.1, hall.2, hd.1⟩
      · have : c :: (r ++ [JNum.digitChar (n % 10)]) = (c :: r) ++ [JNum.digitChar (n % 10)] := rfl
        rw [this, readNat_snoc, hval, hd.2.1]
        omega
      · intro _
        exact hlead (by omega)

/-- The numeral of a natural number: digits only, with the value of the number, no leading
zero unless it is `0`. -/
theorem natDigits_spec (n : Nat) :
    ∃ c r, JNum.natDigits n = c :: r ∧ (c :: r).all isDigit = true ∧
      readNat (c :: r) = n ∧ (0 < n → c ≠ '0') ∧ c ≠ '-' := by
  obtain ⟨c, r, he, h⟩ := digitsAux_spec (n + 1) n [] (by omega)
  exact ⟨c, r, by simpa [JNum.natDigits] using he, h⟩

theorem takeWhile_all (ds : List Char) (h : ds.all isDigit = true) :
    ds.takeWhile isDigit = ds := by
  induction ds with
  | nil => rfl
  | cons c r ih =>
    simp only [List.all_cons, Bool.and_eq_true] at h
    simp [List.takeWhile, h.1, ih h.2]

theorem dropWhile_all (ds : List Char) (h : ds.all isDigit = true) :
    ds.dropWhile isDigit = [] := by
  induction ds with
  | nil => rfl
  | cons c r ih =>
    simp only [List.all_cons, Bool.and_eq_true] at h
    simp [List.dropWhile, h.1, ih h.2]

/-- The numeral of a natural number is an integer part and nothing more. -/
theorem parseInt_natDigits (acc : List Char) (n : Nat) :
    parseInt acc (JNum.natDigits n) = some (acc ++ JNum.natDigits n, []) := by
  obtain ⟨c, r, he, hall, _, hlead, _⟩ := natDigits_spec n
  rw [he]
  simp only [List.all_cons, Bool.and_eq_true] at hall
  by_cases hc : c = '0'
  · have hn : n = 0 := by
      by_contra h0
      exact hlead (Nat.pos_of_ne_zero h0) hc
    subst hn
    have h0 : JNum.natDigits 0 = ['0'] := rfl
    rw [h0] at he
    simp only [List.cons.injEq] at he
    rw [← he.1, ← he.2]
    rfl
  · simp only [parseInt, hc, if_false, hall.1, if_true, takeWhile_all r hall.2,
      dropWhile_all r hall.2]
    rfl

/-- The numeral of an integer is a number literal. -/
theorem parseNumber_intDigits (n : Int) :
    parseNumber (JNum.intDigits n) = some (JNum.intDigits n, []) := by
  cases n with
  | ofNat m =>
    obtain ⟨c, r, he, _, _, _, hminus⟩ := natDigits_spec m
    have := parseInt_natDigits [] m
    simp only [JNum.intDigits]
    rw [he] at this ⊢
    simp only [parseNumber, hminus, if_false]
    simpa using this
  | negSucc k =>
    simp only [JNum.intDigits, parseNumber, if_true]
    exact parseInt_natDigits ['-'] (k + 1)

theorem classify_exact (neg : Bool) (n L : Nat) (lit : List Char) (hn : n ≤ 2 ^ 53)
    (h0 : n ≠ 0) :
    classify neg n L 0 lit = JNum.int (if neg then -(n : Int) else (n : Int)) := by
  unfold classify
  have h1 : ¬ ((308 : Int) < 0) := by decide
  have h2 : ¬ ((0 : Int) < -((L : Int) + 400)) := by omega
  have h3 : ¬ ((0 : Int) < 0 ∧ scaledNum n 0 * 2 ^ 1075 ≤ scaledDen 0) := fun h => by
    exact absurd h.1 (by decide)
  have hnum : scaledNum n 0 = n := by simp [scaledNum]
  have hden : scaledDen 0 = 1 := by simp [scaledDen]
  have hbig : (2 : Nat) ^ 53 < 2 ^ 1024 - 2 ^ 970 := by norm_num
  have h4 : ¬ (300 < (L : Int) + 0 ∧ (2 ^ 1024 - 2 ^ 970) * scaledDen 0 ≤ scaledNum n 0) := by
    rw [hnum, hden, Nat.mul_one]
    exact fun h => absurd h.2 (Nat.not_le.2 (lt_of_le_of_lt hn hbig))
  rw [if_neg h0, if_neg h1, if_neg h2, if_neg h3, if_neg h4, hnum, hden]
  simp only [Nat.mod_one, Nat.div_one, hn, and_self, if_true]

/-- The numeral of an integer up to 2^53 denotes that integer, neither rounded nor
reclassified. -/
theorem toNumber_intDigits (n : Int) (hn : n.natAbs ≤ 2 ^ 53) :
    toNumber (JNum.intDigits n) = JNum.int n := by
  cases n with
  | ofNat m =>
    obtain ⟨c, r, he, hall, hval, _, hminus⟩ := natDigits_spec m
    have hhead : (JNum.intDigits (Int.ofNat m)).head? ≠ some '-' := by
      simp only [JNum.intDigits, he, List.head?_cons, ne_eq, Option.some.injEq]
      exact hminus
    have hu : unsigned (JNum.intDigits (Int.ofNat m)) = c :: r := by
      simp only [unsigned, hhead, if_false]
      exact he
    have hi : intPart (JNum.intDigits (Int.ofNat m)) = c :: r := by
      rw [intPart, hu, takeWhile_all _ hall]
    have hf : fracPart (JNum.intDigits (Int.ofNat m)) = [] := by
      rw [fracPart, hu, dropWhile_all _ hall]
    have hx : expPart (JNum.intDigits (Int.ofNat m)) = [] := by
      rw [expPart, hu, dropWhile_all _ hall]
    unfold toNumber
    rw [hi, hf, hx]
    simp only [List.append_nil, hval, readExp, List.length_nil, Nat.cast_zero, sub_zero, hhead,
      decide_False]
    by_cases hm : m = 0
    · subst hm
      simp [classify, zero]
    · rw [classify_exact false m _ _ (by simpa using hn) hm]
      rfl
  | negSucc k =>
    obtain ⟨c, r, he, hall, hval, _, hminus⟩ := natDigits_spec (k + 1)
    have hhead : (JNum.intDigits (Int.negSucc k)).head? = some '-' := rfl
    have hu : unsigned (JNum.intDigits (Int.negSucc k)) = c :: r := by
      simp only [unsigned, hhead, if_true]
      exact he
    have hi : intPart (JNum.intDigits (Int.negSucc k)) = c :: r := by
      rw [intPart, hu, takeWhile_all _ hall]
    have hf : fracPart (JNum.intDigits (Int.negSucc k)) = [] := by
      rw [fracPart, hu, dropWhile_all _ hall]
    have hx : expPart (JNum.intDigits (Int.negSucc k)) = [] := by
      rw [expPart, hu, dropWhile_all _ hall]
    unfold toNumber
    rw [hi, hf, hx]
    simp only [List.append_nil, hval, readExp, List.length_nil, Nat.cast_zero, sub_zero, hhead,
      decide_True]
    rw [classify_exact true (k + 1) _ _ (by simpa using hn) (by omega)]
    rfl

end JSON
/-! ## JSON text: a serialized value is read back -/

namespace JSON

theorem skipWs_append (w : List Char) (c : Char) (r : List Char)
    (hw : w.all isWs = true) (hc : isWs c = false) : skipWs (w ++ c :: r) = c :: r := by
  induction w with
  | nil => simp [skipWs, hc]
  | cons a w ih =>
    simp only [List.all_cons, Bool.and_eq_true] at hw
    simp only [List.cons_append, skipWs, hw.1, if_true]
    exact ih hw.2

theorem skipWs_cons (c : Char) (r : List Char) (hc : isWs c = false) :
    skipWs (c :: r) = c :: r := skipWs_append [] c r rfl hc

theorem parseValue_succ (fuel : Nat) (cs : List Char) :
    parseValue (fuel + 1) cs =
      match skipWs cs with
      | [] => none
      | c :: r =>
        if c = '{' then
          match skipWs r with
          | [] => none
          | c1 :: r1 =>
            if c1 = '}' then some (JVal.obj [], r1) else parseMembers fuel [] (c1 :: r1)
        else if c = '[' then
          match skipWs r with
          | [] => none
          | c1 :: r1 =>
            if c1 = ']' then some (JVal.arr [], r1) else parseElements fuel [] (c1 :: r1)
        else if c = '"' then
          match parseStringBody none r with
          | some (s, r1) => some (JVal.str (String.mk s), r1)
          | none => none
        else if c = 't' then
          match dropWord "rue".toList r with
          | some r1 => some (JVal.bool true, r1)
          | none => none
        else if c = 'f' then
          match dropWord "alse".toList r with
          | some r1 => some (JVal.bool false, r1)
          | none => none
        else if c = 'n' then
          match dropWord "ull".toList r with
          | some r1 => some (JVal.null, r1)
          | none => none
        else
          match parseNumber (c :: r) with
          | some (lit, r1) => some (JVal.num (toNumber lit), r1)
          | none => none := by
  rw [parseValue]

theorem parseElements_succ (fuel : Nat) (acc : List JVal) (cs : List Char) :
    parseElements (fuel + 1) acc cs =
      match parseValue fuel cs with
      | none => none
      | some (v, r) =>
        match skipWs r with
        | [] => none
        | c :: r1 =>
          if c = ',' then parseElements fuel (acc ++ [v]) r1
          else if c = ']' then some (JVal.arr (acc ++ [v]), r1)
          else none := by
  rw [parseElements]

theorem parseMembers_succ (fuel : Nat) (acc : List (String × JVal)) (cs : List Char) :
    parseMembers (fuel + 1) acc cs =
      match skipWs cs with
      | [] => none
      | q :: r =>
        if q = '"' then
          match parseStringBody none r with
          | none => none
          | some (k, r1) =>
            match skipWs r1 with
            | [] => none
            | c :: r2 =>
              if c = ':' then
                match parseValue fuel r2 with
                | none => none
                | some (v, r3) =>
                  match skipWs r3 with
                  | [] => none
                  | c1 :: r4 =>
                    if c1 = ',' then parseMembers fuel (JVal.setProp acc (String.mk k) v) r4
                    else if c1 = '}' then
                      some (JVal.obj (JVal.setProp acc (String.mk k) v), r4)
                    else none
              else none
        else none := by
  rw [parseMembers]

end JSON

namespace JSON

theorem isWs_cases (c : Char) (h : isWs c = true) : c = ' ' ∨ c = '\t' ∨ c = '\n' ∨ c = '\r' := by
  simp only [isWs, Bool.or_eq_true, decide_eq_true_eq] at h
  tauto

theorem stops_of_ws (c : Char) (r : List Char) (h : isWs c = true) : stops (c :: r) = true := by
  rcases isWs_cases c h with h | h | h | h <;> subst h <;> rfl

/-- What follows a value inside an array or object cannot continue a number. -/
theorem stops_after_value (w : List Char) (c : Char) (rest : List Char)
    (hw : w.all isWs = true) (hc : c = ',' ∨ c = ']' ∨ c = '}') :
    stops (w ++ c :: rest) = true := by
  cases w with
  | nil => rcases hc with h | h | h <;> subst h <;> rfl
  | cons a w =>
    simp only [List.all_cons, Bool.and_eq_true] at hw
    exact stops_of_ws a _ hw.1

theorem number_head (c : Char) (h : c = '-' ∨ isDigit c = true) :
    isWs c = false ∧ c ≠ '{' ∧ c ≠ '[' ∧ c ≠ '"' ∧ c ≠ 't' ∧ c ≠ 'f' ∧ c ≠ 'n' := by
  rcases h with h | h
  · subst h; decide
  · refine ⟨?_, ?_, ?_, ?_, ?_, ?_, ?_⟩
    · cases hw : isWs c with
      | false => rfl
      | true =>
        exfalso
        rcases isWs_cases c hw with e | e | e | e <;> subst e <;> revert h <;> decide
    all_goals (intro e; subst e; revert h; decide)

/-- The serialization of a plain value starts with a character that is not whitespace and
closes no bracket. -/
theorem ser_head (gap indent : List Char) (v : JVal) (t : List Char)
    (hv : v.plain = true) (ht : ser gap indent v = some t) :
    ∃ c r, t = c :: r ∧ isWs c = false ∧ c ≠ ']' ∧ c ≠ '}' := by
  cases v with
  | undefined => simp [JVal.plain] at hv
  | null => simp only [ser, Option.some.injEq] at ht; subst ht; exact ⟨'n', _, rfl, by decide⟩
  | bool b =>
    cases b <;> simp only [ser, Option.some.injEq] at ht <;> subst ht
    · exact ⟨'f', _, rfl, by decide⟩
    · exact ⟨'t', _, rfl, by decide⟩
  | num x =>
    simp only [ser, Option.some.injEq] at ht
    subst ht
    cases x with
    | int n =>
      have hp := parseNumber_intDigits n
      cases hl : JNum.intDigits n with
      | nil => rw [hl] at hp; simp [parseNumber] at hp
      | cons c r =>
        rw [hl] at hp
        have h := number_head c (parseNumber_head c r _ _ hp)
        refine ⟨c, r, by simp [JNum.ser, hl], h.1, ?_, ?_⟩
        · intro e; subst e
          rcases parseNumber_head _ r _ _ hp with h1 | h1 <;> revert h1 <;> decide
        · intro e; subst e
          rcases parseNumber_head _ r _ _ hp with h1 | h1 <;> revert h1 <;> decide
    | negZero => simp [JVal.plain, JNum.exact] at hv
    | inf neg => simp [JVal.plain, JNum.exact] at hv
    | other lit => simp [JVal.plain, JNum.exact] at hv
  | str s =>
    simp only [ser, Option.some.injEq] at ht; subst ht
    exact ⟨'"', _, rfl, by decide⟩
  | arr xs =>
    simp only [ser, Option.some.injEq] at ht; subst ht
    unfold wrap
    split_ifs
    · exact ⟨'[', _, rfl, by decide⟩
    · exact ⟨'[', _, rfl, by decide⟩
    · exact ⟨'[', _, rfl, by decide⟩
  | obj kvs =>
    simp only [ser, Option.some.injEq] at ht; subst ht
    unfold wrap
    split_ifs
    · exact ⟨'{', _, rfl, by decide⟩
    · exact ⟨'{', _, rfl, by decide⟩
    · exact ⟨'{', _, rfl, by decide⟩

/-- The shape of a bracketed list of parts: whitespace, the parts separated by a comma and
whitespace, whitespace, the closing bracket. -/
theorem wrap_shape (op cl : Char) (gap indent : List Char) (p : List Char)
    (ps : List (List Char)) (hgap : gap.all isWs = true) (hind : indent.all isWs = true) :
    ∃ w1 w2 w3 : List Char, w1.all isWs = true ∧ w2.all isWs = true ∧ w3.all isWs = true ∧
      wrap op cl gap indent (indent ++ gap) (p :: ps) =
        op :: (w1 ++ (joinWith (',' :: w2) (p :: ps) ++ (w3 ++ [cl]))) := by
  unfold wrap
  simp only [List.isEmpty_cons, Bool.false_eq_true, if_false]
  split_ifs with hg
  · exact ⟨[], [], [], rfl, rfl, rfl, by simp⟩
  · have hig : (indent ++ gap).all isWs = true := by
      simp only [List.all_append, Bool.and_eq_true]; exact ⟨hind, hgap⟩
    refine ⟨'\n' :: (indent ++ gap), '\n' :: (indent ++ gap), '\n' :: indent, ?_, ?_, ?_, ?_⟩
    · simp only [List.all_cons, Bool.and_eq_true]; exact ⟨by decide, hig⟩
    · simp only [List.all_cons, Bool.and_eq_true]; exact ⟨by decide, hig⟩
    · simp only [List.all_cons, Bool.and_eq_true]; exact ⟨by decide, hind⟩
    · simp

end JSON

namespace JSON

theorem parseValue_atom_null (fuel : Nat) (cs r : List Char)
    (h : skipWs cs = 'n' :: 'u' :: 'l' :: 'l' :: r) :
    parseValue (fuel + 1) cs = some (JVal.null, r) := by
  rw [parseValue_succ, h]
  simp [dropWord]

theorem parseValue_atom_true (fuel : Nat) (cs r : List Char)
    (h : skipWs cs = 't' :: 'r' :: 'u' :: 'e' :: r) :
    parseValue (fuel + 1) cs = some (JVal.bool true, r) := by
  rw [parseValue_succ, h]
  simp [dropWord]

theorem parseValue_atom_false (fuel : Nat) (cs r : List Char)
    (h : skipWs cs = 'f' :: 'a' :: 'l' :: 's' :: 'e' :: r) :
    parseValue (fuel + 1) cs = some (JVal.bool false, r) := by
  rw [parseValue_succ, h]
  simp [dropWord]

theorem parseValue_string (fuel : Nat) (cs r s r1 : List Char)
    (h : skipWs cs = '"' :: r) (hs : parseStringBody none r = some (s, r1)) :
    parseValue (fuel + 1) cs = some (JVal.str (String.mk s), r1) := by
  rw [parseValue_succ, h]
  simp [hs]

theorem parseValue_number (fuel : Nat) (cs : List Char) (c : Char) (r lit r1 : List Char)
    (h : skipWs cs = c :: r) (hc : c = '-' ∨ isDigit c = true)
    (hn : parseNumber (c :: r) = some (lit, r1)) :
    parseValue (fuel + 1) cs = some (JVal.num (toNumber lit), r1) := by
  have hh := number_head c hc
  rw [parseValue_succ, h]
  simp [hh.2.1, hh.2.2.1, hh.2.2.2.1, hh.2.2.2.2.1, hh.2.2.2.2.2.1, hh.2.2.2.2.2.2, hn]

theorem parseValue_empty_array (fuel : Nat) (cs r r1 : List Char)
    (h : skipWs cs = '[' :: r) (h1 : skipWs r = ']' :: r1) :
    parseValue (fuel + 1) cs = some (JVal.arr [], r1) := by
  rw [parseValue_succ, h]
  simp [h1]

theorem parseValue_array (fuel : Nat) (cs r : List Char) (c1 : Char) (r1 : List Char)
    (h : skipWs cs = '[' :: r) (h1 : skipWs r = c1 :: r1) (hc : c1 ≠ ']') :
    parseValue (fuel + 1) cs = parseElements fuel [] (c1 :: r1) := by
  rw [parseValue_succ, h]
  simp [h1, hc]

theorem parseValue_empty_object (fuel : Nat) (cs r r1 : List Char)
    (h : skipWs cs = '{' :: r) (h1 : skipWs r = '}' :: r1) :
    parseValue (fuel + 1) cs = some (JVal.obj [], r1) := by
  rw [parseValue_succ, h]
  simp [h1]

theorem parseValue_object (fuel : Nat) (cs r : List Char) (c1 : Char) (r1 : List Char)
    (h : skipWs cs = '{' :: r) (h1 : skipWs r = c1 :: r1) (hc : c1 ≠ '}') :
    parseValue (fuel + 1) cs = parseMembers fuel [] (c1 :: r1) := by
  rw [parseValue_succ, h]
  simp [h1, hc]

theorem parseElements_last (fuel : Nat) (acc : List JVal) (cs : List Char) (x : JVal)
    (r rest : List Char) (h : parseValue fuel cs = some (x, r))
    (h1 : skipWs r = ']' :: rest) :
    parseElements (fuel + 1) acc cs = some (JVal.arr (acc ++ [x]), rest) := by
  rw [parseElements_succ, h]
  simp [h1]

theorem parseElements_more (fuel : Nat) (acc : List JVal) (cs : List Char) (x : JVal)
    (r r1 : List Char) (h : parseValue fuel cs = some (x, r))
    (h1 : skipWs r = ',' :: r1) :
    parseElements (fuel + 1) acc cs = parseElements fuel (acc ++ [x]) r1 := by
  rw [parseElements_succ, h]
  simp [h1]

theorem parseMembers_last (fuel : Nat) (acc : List (String × JVal)) (cs r k r1 r2 : List Char)
    (v : JVal) (r3 rest : List Char) (h : skipWs cs = '"' :: r)
    (hk : parseStringBody none r = some (k, r1)) (hc : skipWs r1 = ':' :: r2)
    (hv : parseValue fuel r2 = some (v, r3)) (he : skipWs r3 = '}' :: rest) :
    parseMembers (fuel + 1) acc cs =
      some (JVal.obj (JVal.setProp acc (String.mk k) v), rest) := by
  rw [parseMembers_succ, h]
  simp [hk, hc, hv, he]

theorem parseMembers_more (fuel : Nat) (acc : List (String × JVal)) (cs r k r1 r2 : List Char)
    (v : JVal) (r3 r4 : List Char) (h : skipWs cs = '"' :: r)
    (hk : parseStringBody none r = some (k, r1)) (hc : skipWs r1 = ':' :: r2)
    (hv : parseValue fuel r2 = some (v, r3)) (he : skipWs r3 = ',' :: r4) :
    parseMembers (fuel + 1) acc cs =
      parseMembers fuel (JVal.setProp acc (String.mk k) v) r4 := by
  rw [parseMembers_succ, h]
  simp [hk, hc, hv, he]

/-- Setting a property that is not there yet appends it. -/
theorem setProp_new (acc : List (String × JVal)) (k : String) (v : JVal)
    (h : k ∉ acc.map Prod.fst) : JVal.setProp acc k v = acc ++ [(k, v)] := by
  unfold JVal.setProp
  rw [JVal.mem_keys_iff_lookup] at h
  rw [if_neg h]

end JSON

namespace JSON

theorem fuel_succ (n fuel : Nat) (h : n + 1 ≤ fuel) : ∃ f, fuel = f + 1 ∧ n ≤ f :=
  ⟨fuel - 1, by omega, by omega⟩

mutual
/-- A plain value is read back from its serialization, whatever the indentation, with
whitespace in front and anything behind that cannot continue a number. -/
theorem parseValue_ser (gap : List Char) (hgap : gap.all isWs = true) :
    ∀ (v : JVal) (indent w0 rest : List Char) (fuel : Nat),
      v.plain = true → indent.all isWs = true → w0.all isWs = true → stops rest = true →
      need v ≤ fuel →
      ∃ t, ser gap indent v = some t ∧ parseValue fuel (w0 ++ (t ++ rest)) = some (v, rest)
  | JVal.undefined, _, _, _, _, hv, _, _, _, _ => by simp [JVal.plain] at hv
  | JVal.null, indent, w0, rest, fuel, _, _, hw0, _, hf => by
    obtain ⟨f, rfl, _⟩ := fuel_succ 0 fuel (by simpa [need] using hf)
    exact ⟨_, rfl, parseValue_atom_null f _ rest (skipWs_append w0 'n' _ hw0 (by decide))⟩
  | JVal.bool true, indent, w0, rest, fuel, _, _, hw0, _, hf => by
    obtain ⟨f, rfl, _⟩ := fuel_succ 0 fuel (by simpa [need] using hf)
    exact ⟨_, rfl, parseValue_atom_true f _ rest (skipWs_append w0 't' _ hw0 (by decide))⟩
  | JVal.bool false, indent, w0, rest, fuel, _, _, hw0, _, hf => by
    obtain ⟨f, rfl, _⟩ := fuel_succ 0 fuel (by simpa [need] using hf)
    exact ⟨_, rfl, parseValue_atom_false f _ rest (skipWs_append w0 'f' _ hw0 (by decide))⟩
  | JVal.num x, indent, w0, rest, fuel, hv, _, hw0, hrest, hf => by
    obtain ⟨f, rfl, _⟩ := fuel_succ 0 fuel (by simpa [need] using hf)
    cases x with
    | int n =>
      simp only [JVal.plain, JNum.exact, decide_eq_true_eq] at hv
      refine ⟨JNum.intDigits n, rfl, ?_⟩
      have hlit := parseNumber_intDigits n
      have hval := toNumber_intDigits n hv
      cases hl : JNum.intDigits n with
      | nil => rw [hl] at hlit; simp [parseNumber] at hlit
      | cons c r =>
        rw [hl] at hlit hval
        have hc := parseNumber_head c r _ _ hlit
        have hn := parseNumber_append (c :: r) rest _ _ hrest hlit
        have hp := parseValue_number f (w0 ++ (c :: r ++ rest)) c (r ++ rest) (c :: r)
          ([] ++ rest) (skipWs_append w0 c _ hw0 (number_head c hc).1) hc hn
        rw [hp, hval]
        rfl
    | negZero => simp [JVal.plain, JNum.exact] at hv
    | inf neg => simp [JVal.plain, JNum.exact] at hv
    | other lit => simp [JVal.plain, JNum.exact] at hv
  | JVal.str s, indent, w0, rest, fuel, _, _, hw0, _, hf => by
    obtain ⟨f, rfl, _⟩ := fuel_succ 0 fuel (by simpa [need] using hf)
    refine ⟨quote s.toList, rfl, ?_⟩
    have hp := parseValue_string f (w0 ++ (quote s.toList ++ rest))
      (quoteBody s.toList ++ '"' :: rest) s.toList rest
      (by
        have : quote s.toList ++ rest = '"' :: (quoteBody s.toList ++ '"' :: rest) := by
          simp [quote]
        rw [this]
        exact skipWs_append w0 '"' _ hw0 (by decide))
      (parseStringBody_quoteBody s.toList rest)
    rw [hp]
    rfl
  | JVal.arr [], indent, w0, rest, fuel, _, _, hw0, _, hf => by
    obtain ⟨f, rfl, _⟩ := fuel_succ 0 fuel (by simpa [need, needElems] using hf)
    refine ⟨['[', ']'], by simp [ser, serElems, wrap], ?_⟩
    exact parseValue_empty_array f _ (']' :: rest) rest
      (skipWs_append w0 '[' _ hw0 (by decide)) (skipWs_cons ']' rest (by decide))
  | JVal.arr (x :: xs), indent, w0, rest, fuel, hv, hind, hw0, hrest, hf => by
    obtain ⟨f, rfl, hf1⟩ := fuel_succ (needElems (x :: xs)) fuel (by simpa [need] using hf)
    have hig : (indent ++ gap).all isWs = true := by
      simp only [List.all_append, Bool.and_eq_true]; exact ⟨hind, hgap⟩
    have hx : x.plain = true := by
      simp only [JVal.plain, JVal.allPlain, Bool.and_eq_true] at hv; exact hv.1
    obtain ⟨p, hp, _⟩ := parseValue_ser gap hgap x (indent ++ gap) [] [] (need x) hx hig rfl rfl
      (le_refl _)
    obtain ⟨c1, r1, hp1, hc1, hc2, _⟩ := ser_head gap (indent ++ gap) x p hx hp
    have hparts : serElems gap (indent ++ gap) (x :: xs) =
        p :: serElems gap (indent ++ gap) xs := by
      simp [serElems, hp]
    obtain ⟨w1, w2, w3, hw1, hw2, hw3, hshape⟩ :=
      wrap_shape '[' ']' gap indent p (serElems gap (indent ++ gap) xs) hgap hind
    refine ⟨_, rfl, ?_⟩
    rw [hparts, hshape]
    have hE := parseElements_ser gap hgap (x :: xs) (indent ++ gap) [] w2 w3 rest [] f
      (by simp) (by simpa [JVal.plain] using hv) hig rfl hw2 hw3 hf1
    rw [hparts] at hE
    have hJ : ∃ r2, joinWith (',' :: w2) (p :: serElems gap (indent ++ gap) xs) ++
        (w3 ++ ']' :: rest) = c1 :: r2 := by
      rw [hp1]
      cases serElems gap (indent ++ gap) xs with
      | nil => exact ⟨_, rfl⟩
      | cons q qs => exact ⟨_, rfl⟩
    obtain ⟨r2, hr2⟩ := hJ
    have hstep := parseValue_array f
      (w0 ++ ('[' :: (w1 ++ (joinWith (',' :: w2) (p :: serElems gap (indent ++ gap) xs) ++
        (w3 ++ [']']))) ++ rest))
      (w1 ++ (joinWith (',' :: w2) (p :: serElems gap (indent ++ gap) xs) ++
        (w3 ++ ']' :: rest))) c1 r2
      (by
        have : ('[' :: (w1 ++ (joinWith (',' :: w2) (p :: serElems gap (indent ++ gap) xs) ++
            (w3 ++ [']']))) ++ rest) = '[' :: (w1 ++ (joinWith (',' :: w2)
            (p :: serElems gap (indent ++ gap) xs) ++ (w3 ++ ']' :: rest))) := by simp
        rw [this]
        exact skipWs_append w0 '[' _ hw0 (by decide))
      (by rw [hr2]; exact skipWs_append w1 c1 r2 hw1 hc1)
      hc2
    rw [hstep, ← hr2]
    simpa using hE
  | JVal.obj [], indent, w0, rest, fuel, _, _, hw0, _, hf => by
    obtain ⟨f, rfl, _⟩ := fuel_succ 0 fuel (by simpa [need, needMembers] using hf)
    refine ⟨['{', '}'], by simp [ser, serMembers, wrap], ?_⟩
    exact parseValue_empty_object f _ ('}' :: rest) rest
      (skipWs_append w0 '{' _ hw0 (by decide)) (skipWs_cons '}' rest (by decide))
  | JVal.obj ((k, x) :: kvs), indent, w0, rest, fuel, hv, hind, hw0, hrest, hf => by
    obtain ⟨f, rfl, hf1⟩ :=
      fuel_succ (needMembers ((k, x) :: kvs)) fuel (by simpa [need] using hf)
    have hig : (indent ++ gap).all isWs = true := by
      simp only [List.all_append, Bool.and_eq_true]; exact ⟨hind, hgap⟩
    simp only [JVal.plain, Bool.and_eq_true, decide_eq_true_eq] at hv
    have hx : x.plain = true := by
      have := hv.1
      simp only [JVal.membersPlain, JVal.memberPlain, Bool.and_eq_true] at this
      exact this.1
    obtain ⟨p, hp, _⟩ := parseValue_ser gap hgap x (indent ++ gap) [] [] (need x) hx hig rfl rfl
      (le_refl _)
    have hparts : serMembers gap (indent ++ gap) ((k, x) :: kvs) =
        (quote k.toList ++ ':' :: ((if gap.isEmpty then [] else [' ']) ++ p)) ::
          serMembers gap (indent ++ gap) kvs := by
      simp [serMembers, serMember, hp]
    obtain ⟨w1, w2, w3, hw1, hw2, hw3, hshape⟩ :=
      wrap_shape '{' '}' gap indent
        (quote k.toList ++ ':' :: ((if gap.isEmpty then [] else [' ']) ++ p))
        (serMembers gap (indent ++ gap) kvs) hgap hind
    refine ⟨_, rfl, ?_⟩
    rw [hparts, hshape]
    have hM := parseMembers_ser gap hgap ((k, x) :: kvs) (indent ++ gap) [] w2 w3 rest [] f
      (by simp) hv.1 (by simpa using hv.2) hig rfl hw2 hw3 hf1
    rw [hparts] at hM
    have hJ : ∃ r2, joinWith (',' :: w2)
        ((quote k.toList ++ ':' :: ((if gap.isEmpty then [] else [' ']) ++ p)) ::
          serMembers gap (indent ++ gap) kvs) ++ (w3 ++ '}' :: rest) = '"' :: r2 := by
      cases serMembers gap (indent ++ gap) kvs with
      | nil => exact ⟨_, rfl⟩
      | cons q qs => exact ⟨_, rfl⟩
    obtain ⟨r2, hr2⟩ := hJ
    have hstep := parseValue_object f
      (w0 ++ ('{' :: (w1 ++ (joinWith (',' :: w2)
        ((quote k.toList ++ ':' :: ((if gap.isEmpty then [] else [' ']) ++ p)) ::
          serMembers gap (indent ++ gap) kvs) ++ (w3 ++ ['}']))) ++ rest))
      (w1 ++ (joinWith (',' :: w2)
        ((quote k.toList ++ ':' :: ((if gap.isEmpty then [] else [' ']) ++ p)) ::
          serMembers gap (indent ++ gap) kvs) ++ (w3 ++ '}' :: rest))) '"' r2
      (by
        have : ('{' :: (w1 ++ (joinWith (',' :: w2)
            ((quote k.toList ++ ':' :: ((if gap.isEmpty then [] else [' ']) ++ p)) ::
              serMembers gap (indent ++ gap) kvs) ++ (w3 ++ ['}']))) ++ rest) =
            '{' :: (w1 ++ (joinWith (',' :: w2)
            ((quote k.toList ++ ':' :: ((if gap.isEmpty then [] else [' ']) ++ p)) ::
              serMembers gap (indent ++ gap) kvs) ++ (w3 ++ '}' :: rest))) := by simp
        rw [this]
        exact skipWs_append w0 '{' _ hw0 (by decide))
      (by rw [hr2]; exact skipWs_append w1 '"' r2 hw1 (by decide))
      (by decide)
    rw [hstep, ← hr2]
    simpa using hM
/-- The elements of an array are read back from their serialization. -/
theorem parseElements_ser (gap : List Char) (hgap : gap.all isWs = true) :
    ∀ (xs : List JVal) (ind w0 w wEnd rest : List Char) (acc : List JVal) (fuel : Nat),
      xs ≠ [] → JVal.allPlain xs = true → ind.all isWs = true → w0.all isWs = true →
      w.all isWs = true → wEnd.all isWs = true → needElems xs ≤ fuel →
      parseElements fuel acc
          (w0 ++ (joinWith (',' :: w) (serElems gap ind xs) ++ (wEnd ++ ']' :: rest))) =
        some (JVal.arr (acc ++ xs), rest)
  | [], _, _, _, _, _, _, _, hne, _, _, _, _, _, _ => absurd rfl hne
  | [x], ind, w0, w, wEnd, rest, acc, fuel, _, hv, hind, hw0, _, hwE, hf => by
    obtain ⟨f, rfl, hf1⟩ := fuel_succ (need x) fuel (by simpa [needElems] using hf)
    have hx : x.plain = true := by
      simp only [JVal.allPlain, Bool.and_eq_true] at hv; exact hv.1
    obtain ⟨t, ht, hp⟩ := parseValue_ser gap hgap x ind w0 (wEnd ++ ']' :: rest) f hx hind hw0
      (stops_after_value wEnd ']' rest hwE (by simp)) hf1
    have hparts : serElems gap ind [x] = [t] := by simp [serElems, ht]
    rw [hparts]
    simp only [joinWith]
    exact parseElements_last f acc _ x _ rest hp (skipWs_append wEnd ']' rest hwE (by decide))
  | x :: y :: r, ind, w0, w, wEnd, rest, acc, fuel, _, hv, hind, hw0, hw, hwE, hf => by
    obtain ⟨f, rfl, hf1⟩ :=
      fuel_succ (max (need x) (needElems (y :: r))) fuel (by simpa [needElems] using hf)
    simp only [JVal.allPlain, Bool.and_eq_true] at hv
    have hrest : JVal.allPlain (y :: r) = true := by
      simp only [JVal.allPlain, Bool.and_eq_true]; exact hv.2
    obtain ⟨t, ht, hp⟩ := parseValue_ser gap hgap x ind w0
      (',' :: (w ++ (joinWith (',' :: w) (serElems gap ind (y :: r)) ++ (wEnd ++ ']' :: rest))))
      f hv.1 hind hw0 (stops_after_value [] ',' _ rfl (by simp)) (le_trans (le_max_left _ _) hf1)
    have hIH := parseElements_ser gap hgap (y :: r) ind w w wEnd rest (acc ++ [x]) f (by simp)
      hrest hind hw hw hwE (le_trans (le_max_right _ _) hf1)
    have hparts : serElems gap ind (x :: y :: r) = t :: serElems gap ind (y :: r) := by
      simp [serElems, ht]
    have hcons : ∃ q qs, serElems gap ind (y :: r) = q :: qs := by
      rw [serElems]
      exact ⟨_, _, rfl⟩
    obtain ⟨q, qs, hq⟩ := hcons
    rw [hparts]
    rw [hq] at hp hIH ⊢
    have htext : joinWith (',' :: w) (t :: q :: qs) ++ (wEnd ++ ']' :: rest) =
        t ++ (',' :: (w ++ (joinWith (',' :: w) (q :: qs) ++ (wEnd ++ ']' :: rest)))) := by
      simp [joinWith]
    rw [htext, parseElements_more f acc _ x _ _ hp (skipWs_cons ',' _ (by decide)), hIH]
    simp
/-- The members of an object are read back from their serialization. -/
theorem parseMembers_ser (gap : List Char) (hgap : gap.all isWs = true) :
    ∀ (kvs : List (String × JVal)) (ind w0 w wEnd rest : List Char)
      (acc : List (String × JVal)) (fuel : Nat),
      kvs ≠ [] → JVal.membersPlain kvs = true → ((acc ++ kvs).map Prod.fst).Nodup →
      ind.all isWs = true → w0.all isWs = true →
      w.all isWs = true → wEnd.all isWs = true → needMembers kvs ≤ fuel →
      parseMembers fuel acc
          (w0 ++ (joinWith (',' :: w) (serMembers gap ind kvs) ++ (wEnd ++ '}' :: rest))) =
        some (JVal.obj (acc ++ kvs), rest)
  | [], _, _, _, _, _, _, _, hne, _, _, _, _, _, _, _ => absurd rfl hne
  | [(k, x)], ind, w0, w, wEnd, rest, acc, fuel, _, hv, hnd, hind, hw0, _, hwE, hf => by
    obtain ⟨f, rfl, hf1⟩ :=
      fuel_succ (need x) fuel (by simpa [needMembers, needMember] using hf)
    have hx : x.plain = true := by
      simp only [JVal.membersPlain, JVal.memberPlain, Bool.and_eq_true] at hv; exact hv.1
    obtain ⟨t, ht, hp⟩ := parseValue_ser gap hgap x ind (if gap.isEmpty then [] else [' '])
      (wEnd ++ '}' :: rest) f hx hind (by split_ifs <;> rfl)
      (stops_after_value wEnd '}' rest hwE (by simp)) hf1
    have hparts : serMembers gap ind [(k, x)] =
        [quote k.toList ++ ':' :: ((if gap.isEmpty then [] else [' ']) ++ t)] := by
      simp [serMembers, serMember, ht]
    have hnew : k ∉ acc.map Prod.fst := by
      simp only [List.map_append, List.map_cons, List.map_nil] at hnd
      intro hin
      exact (List.nodup_append.1 hnd).2.2 hin (by simp)
    rw [hparts]
    simp only [joinWith]
    have htext : w0 ++ ((quote k.toList ++ ':' :: ((if gap.isEmpty then [] else [' ']) ++ t)) ++
        (wEnd ++ '}' :: rest)) = w0 ++ '"' :: (quoteBody k.toList ++ '"' ::
          (':' :: ((if gap.isEmpty then [] else [' ']) ++ (t ++ (wEnd ++ '}' :: rest))))) := by
      simp [quote]
    rw [htext, parseMembers_last f acc _ _ k.toList _ _ x _ rest
      (skipWs_append w0 '"' _ hw0 (by decide)) (parseStringBody_quoteBody _ _)
      (skipWs_cons ':' _ (by decide)) hp (skipWs_append wEnd '}' rest hwE (by decide))]
    rw [show String.mk k.toList = k from rfl, setProp_new acc k x hnew]
  | (k, x) :: q :: r, ind, w0, w, wEnd, rest, acc, fuel, _, hv, hnd, hind, hw0, hw, hwE, hf => by
    obtain ⟨f, rfl, hf1⟩ :=
      fuel_succ (max (need x) (needMembers (q :: r))) fuel
        (by simpa [needMembers, needMember] using hf)
    simp only [JVal.membersPlain, JVal.memberPlain, Bool.and_eq_true] at hv
    have hrest : JVal.membersPlain (q :: r) = true := by
      simp only [JVal.membersPlain, Bool.and_eq_true]; exact hv.2
    obtain ⟨t, ht, hp⟩ := parseValue_ser gap hgap x ind (if gap.isEmpty then [] else [' '])
      (',' :: (w ++ (joinWith (',' :: w) (serMembers gap ind (q :: r)) ++
        (wEnd ++ '}' :: rest))))
      f hv.1 hind (by split_ifs <;> rfl) (stops_after_value [] ',' _ rfl (by simp))
      (le_trans (le_max_left _ _) hf1)
    have hnew : k ∉ acc.map Prod.fst := by
      simp only [List.map_append, List.map_cons] at hnd
      intro hin
      exact (List.nodup_append.1 hnd).2.2 hin (by simp)
    have hnd1 : (((acc ++ [(k, x)]) ++ (q :: r)).map Prod.fst).Nodup := by
      simpa using hnd
    have hIH := parseMembers_ser gap hgap (q :: r) ind w w wEnd rest (acc ++ [(k, x)]) f
      (by simp) hrest hnd1 hind hw hw hwE (le_trans (le_max_right _ _) hf1)
    have hparts : serMembers gap ind ((k, x) :: q :: r) =
        (quote k.toList ++ ':' :: ((if gap.isEmpty then [] else [' ']) ++ t)) ::
          serMembers gap ind (q :: r) := by
      simp [serMembers, serMember, ht]
    have hcons : ∃ m ms, serMembers gap ind (q :: r) = m :: ms := by
      obtain ⟨k1, x1⟩ := q
      have hx1 : x1.plain = true := by
        simp only [JVal.membersPlain, JVal.memberPlain, Bool.and_eq_true] at hrest
        exact hrest.1
      obtain ⟨t1, ht1, _⟩ := parseValue_ser gap hgap x1 ind [] [] (need x1) hx1 hind rfl rfl
        (le_refl _)
      have : serMembers gap ind ((k1, x1) :: r) =
          (quote k1.toList ++ ':' :: ((if gap.isEmpty then [] else [' ']) ++ t1)) ::
            serMembers gap ind r := by
        simp [serMembers, serMember, ht1]
      exact ⟨_, _, this⟩
    obtain ⟨m, ms, hm⟩ := hcons
    rw [hparts]
    rw [hm] at hp hIH ⊢
    have htext : w0 ++ (joinWith (',' :: w)
        ((quote k.toList ++ ':' :: ((if gap.isEmpty then [] else [' ']) ++ t)) :: m :: ms) ++
        (wEnd ++ '}' :: rest)) = w0 ++ '"' :: (quoteBody k.toList ++ '"' ::
          (':' :: ((if gap.isEmpty then [] else [' ']) ++ (t ++
            (',' :: (w ++ (joinWith (',' :: w) (m :: ms) ++ (wEnd ++ '}' :: rest)))))))) := by
      simp [quote, joinWith]
    rw [htext, parseMembers_more f acc _ _ k.toList _ _ x _ _
      (skipWs_append w0 '"' _ hw0 (by decide)) (parseStringBody_quoteBody _ _)
      (skipWs_cons ':' _ (by decide)) hp (skipWs_cons ',' _ (by decide))]
    rw [show String.mk k.toList = k from rfl, setProp_new acc k x hnew, hIH]
    simp
end

end JSON

/-! ## JSON text: the fuel of `parseChars` is enough -/

namespace JSON

theorem skipWs_length (cs : List Char) : (skipWs cs).length ≤ cs.length := by
  induction cs with
  | nil => simp [skipWs]
  | cons c r ih =>
    simp only [skipWs]
    split
    · simp only [List.length_cons]; omega
    · simp

theorem push_eq_some (c : Char) (res : Option (List Char × List Char)) (s r : List Char)
    (h : push c res = some (s, r)) : ∃ s1, res = some (s1, r) := by
  cases res with
  | none => simp [push] at h
  | some p =>
    obtain ⟨a, b⟩ := p
    simp only [push, Option.some.injEq, Prod.mk.injEq] at h
    exact ⟨a, by rw [h.2]⟩

theorem flush_eq_some (hi : Option Nat) (res : Option (List Char × List Char))
    (s r : List Char) (h : flush hi res = some (s, r)) : ∃ s1, res = some (s1, r) := by
  cases hi with
  | none => exact ⟨s, h⟩
  | some n => exact push_eq_some _ res s r h

/-- A string literal is shorter than the input it was read from. -/
theorem parseStringBody_length (n : Nat) : ∀ (hi : Option Nat) (cs s r : List Char),
    cs.length ≤ n → parseStringBody hi cs = some (s, r) → r.length < cs.length := by
  induction n with
  | zero =>
    intro hi cs s r hlen h
    cases cs with
    | nil => rw [parseStringBody.eq_def] at h; simp at h
    | cons c t => simp at hlen
  | succ n ih =>
    intro hi cs s r hlen h
    rw [parseStringBody.eq_def] at h
    cases cs with
    | nil => simp at h
    | cons c t =>
      simp only [List.length_cons] at hlen ⊢
      simp only at h
      split_ifs at h with h1 h2 h3
      · obtain ⟨s1, hs⟩ := flush_eq_some _ _ _ _ h
        simp only [Option.some.injEq, Prod.mk.injEq] at hs
        rw [← hs.2]; omega
      · cases t with
        | nil => simp at h
        | cons e t1 =>
          simp only at h
          split_ifs at h with he
          · match t1, h with
            | a :: b :: c2 :: d :: r2, h =>
              simp only at h
              cases hx : hex4 a b c2 d with
              | none => simp [hx] at h
              | some m =>
                simp only [hx] at h
                have key : ∀ (hi1 : Option Nat) (s1 : List Char),
                    parseStringBody hi1 r2 = some (s1, r) →
                    r.length < (e :: a :: b :: c2 :: d :: r2).length + 1 := by
                  intro hi1 s1 hs
                  have := ih hi1 r2 s1 r (by simp only [List.length_cons] at hlen; omega) hs
                  simp only [List.length_cons]; omega
                split_ifs at h
                · cases hi with
                  | none =>
                    obtain ⟨s1, hs⟩ := push_eq_some _ _ _ _ h
                    exact key _ _ hs
                  | some hh =>
                    obtain ⟨s1, hs⟩ := push_eq_some _ _ _ _ h
                    exact key _ _ hs
                · obtain ⟨s1, hs⟩ := flush_eq_some _ _ _ _ h
                  exact key _ _ hs
                · obtain ⟨s1, hs⟩ := flush_eq_some _ _ _ _ h
                  obtain ⟨s2, hs2⟩ := push_eq_some _ _ _ _ hs
                  exact key _ _ hs2
            | [], h => simp at h
            | [_], h => simp at h
            | [_, _], h => simp at h
            | [_, _, _], h => simp at h
          · cases hu : unescape e with
            | none => simp [hu] at h
            | some x =>
              simp only [hu] at h
              obtain ⟨s1, hs⟩ := flush_eq_some _ _ _ _ h
              obtain ⟨s2, hs2⟩ := push_eq_some _ _ _ _ hs
              have := ih none t1 s2 r (by simp only [List.length_cons] at hlen; omega) hs2
              simp only [List.length_cons]; omega
      · obtain ⟨s1, hs⟩ := flush_eq_some _ _ _ _ h
        obtain ⟨s2, hs2⟩ := push_eq_some _ _ _ _ hs
        have := ih none t s2 r (by omega) hs2
        omega

theorem dropWord_length (w cs r : List Char) (h : dropWord w cs = some r) :
    r.length ≤ cs.length := by
  induction w generalizing cs with
  | nil => simp only [dropWord, Option.some.injEq] at h; rw [h]
  | cons a w ih =>
    cases cs with
    | nil => simp [dropWord] at h
    | cons c cs =>
      simp only [dropWord] at h
      split_ifs at h
      have := ih cs h
      simp only [List.length_cons]; omega

theorem dropWhile_length (cs : List Char) : (cs.dropWhile isDigit).length ≤ cs.length := by
  induction cs with
  | nil => simp
  | cons c r ih =>
    simp only [List.dropWhile]
    split
    · simp only [List.length_cons]; omega
    · simp

theorem digits1_length (acc cs t r : List Char) (h : digits1 acc cs = some (t, r)) :
    r.length ≤ cs.length := by
  unfold digits1 at h
  split_ifs at h
  simp only [Option.some.injEq, Prod.mk.injEq] at h
  rw [← h.2]
  exact dropWhile_length cs

theorem parseExp_length (acc cs t r : List Char) (h : parseExp acc cs = some (t, r)) :
    r.length ≤ cs.length := by
  cases cs with
  | nil => simp only [parseExp, Option.some.injEq, Prod.mk.injEq] at h; rw [← h.2]
  | cons e l =>
    simp only [parseExp] at h
    split_ifs at h
    · cases l with
      | nil => simp at h
      | cons s r1 =>
        simp only at h
        split_ifs at h
        · have := digits1_length _ _ _ _ h
          simp only [List.length_cons]; omega
        · have := digits1_length _ _ _ _ h
          simp only [List.length_cons] at this ⊢; omega
    · simp only [Option.some.injEq, Prod.mk.injEq] at h; rw [← h.2]

theorem parseFrac_length (acc cs t r : List Char) (h : parseFrac acc cs = some (t, r)) :
    r.length ≤ cs.length := by
  cases cs with
  | nil => simp only [parseFrac, Option.some.injEq, Prod.mk.injEq] at h; rw [← h.2]
  | cons c l =>
    simp only [parseFrac] at h
    split_ifs at h
    · cases hd : digits1 (acc ++ ['.']) l with
      | none => simp [hd] at h
      | some p =>
        obtain ⟨a1, r1⟩ := p
        simp only [hd] at h
        have h1 := digits1_length _ _ _ _ hd
        have h2 := parseExp_length _ _ _ _ h
        simp only [List.length_cons]; omega
    · exact parseExp_length _ _ _ _ h

theorem parseInt_length (acc cs t r : List Char) (h : parseInt acc cs = some (t, r)) :
    r.length ≤ cs.length := by
  cases cs with
  | nil => simp [parseInt] at h
  | cons d l =>
    simp only [parseInt] at h
    split_ifs at h
    · have := parseFrac_length _ _ _ _ h
      simp only [List.length_cons]; omega
    · have h1 := parseFrac_length _ _ _ _ h
      have h2 := dropWhile_length l
      simp only [List.length_cons]; omega

theorem parseNumber_length (cs t r : List Char) (h : parseNumber cs = some (t, r)) :
    r.length ≤ cs.length := by
  cases cs with
  | nil => simp [parseNumber] at h
  | cons c l =>
    simp only [parseNumber] at h
    split_ifs at h
    · have := parseInt_length _ _ _ _ h
      simp only [List.length_cons]; omega
    · exact parseInt_length _ _ _ _ h

end JSON

namespace JSON

/-- More fuel does not change what `parseValue` reads, and twice the number of characters
read, plus one, is enough fuel. -/
theorem fuel_free : ∀ f : Nat,
    (∀ (cs : List Char) (v : JVal) (r : List Char), parseValue f cs = some (v, r) →
      r.length ≤ cs.length ∧
      ∀ g, 2 * (cs.length - r.length) + 1 ≤ g → parseValue g cs = some (v, r)) ∧
    (∀ (acc : List JVal) (cs : List Char) (v : JVal) (r : List Char),
      parseElements f acc cs = some (v, r) →
      r.length ≤ cs.length ∧
      ∀ g, 2 * (cs.length - r.length) + 1 ≤ g → parseElements g acc cs = some (v, r)) ∧
    (∀ (acc : List (String × JVal)) (cs : List Char) (v : JVal) (r : List Char),
      parseMembers f acc cs = some (v, r) →
      r.length ≤ cs.length ∧
      ∀ g, 2 * (cs.length - r.length) + 1 ≤ g → parseMembers g acc cs = some (v, r)) := by
  intro f
  induction f with
  | zero =>
    refine ⟨?_, ?_, ?_⟩
    · intro cs v r h; simp [parseValue] at h
    · intro acc cs v r h; simp [parseElements] at h
    · intro acc cs v r h; simp [parseMembers] at h
  | succ f ih =>
    obtain ⟨ihV, ihE, ihM⟩ := ih
    refine ⟨?_, ?_, ?_⟩
    · intro cs v r h
      rw [parseValue_succ] at h
      have hlen0 := skipWs_length cs
      cases hs : skipWs cs with
      | nil => simp [hs] at h
      | cons c r0 =>
        rw [hs] at h hlen0
        simp only [List.length_cons] at hlen0
        simp only at h
        have hg : ∀ g, 2 * (cs.length - r.length) + 1 ≤ g → ∃ g1, g = g1 + 1 :=
          fun g hg => ⟨g - 1, by omega⟩
        split_ifs at h with h1 h2 h3 h4 h5 h6
        · have hlen1 := skipWs_length r0
          cases hs1 : skipWs r0 with
          | nil => simp [hs1] at h
          | cons c1 r1 =>
            rw [hs1] at h hlen1
            simp only [List.length_cons] at hlen1
            simp only at h
            split_ifs at h with h7
            · simp only [Option.some.injEq, Prod.mk.injEq] at h
              obtain ⟨hv, hr⟩ := h
              subst hv hr
              refine ⟨by omega, ?_⟩
              intro g hgg
              obtain ⟨g1, rfl⟩ := hg g hgg
              rw [parseValue_succ, hs]
              simp [h1, hs1, h7]
            · obtain ⟨hl, hfuel⟩ := ihM [] (c1 :: r1) v r h
              simp only [List.length_cons] at hl hfuel
              refine ⟨by omega, ?_⟩
              intro g hgg
              obtain ⟨g1, rfl⟩ := hg g hgg
              rw [parseValue_succ, hs]
              simp only [h1, if_true, hs1, h7, if_false]
              exact hfuel g1 (by omega)
        · have hlen1 := skipWs_length r0
          cases hs1 : skipWs r0 with
          | nil => simp [hs1] at h
          | cons c1 r1 =>
            rw [hs1] at h hlen1
            simp only [List.length_cons] at hlen1
            simp only at h
            split_ifs at h with h7
            · simp only [Option.some.injEq, Prod.mk.injEq] at h
              obtain ⟨hv, hr⟩ := h
              subst hv hr
              refine ⟨by omega, ?_⟩
              intro g hgg
              obtain ⟨g1, rfl⟩ := hg g hgg
              rw [parseValue_succ, hs]
              simp [h1, h2, hs1, h7]
            · obtain ⟨hl, hfuel⟩ := ihE [] (c1 :: r1) v r h
              simp only [List.length_cons] at hl hfuel
              refine ⟨by omega, ?_⟩
              intro g hgg
              obtain ⟨g1, rfl⟩ := hg g hgg
              rw [parseValue_succ, hs]
              simp only [h1, h2, if_true, hs1, h7, if_false]
              exact hfuel g1 (by omega)
        · cases hp : parseStringBody none r0 with
          | none => simp [hp] at h
          | some p =>
            obtain ⟨s, r1⟩ := p
            simp only [hp, Option.some.injEq, Prod.mk.injEq] at h
            obtain ⟨hv, hr⟩ := h
            subst hv hr
            have := parseStringBody_length r0.length none r0 s r1 (le_refl _) hp
            refine ⟨by omega, ?_⟩
            intro g hgg
            obtain ⟨g1, rfl⟩ := hg g hgg
            rw [parseValue_succ, hs]
            simp [h1, h2, h3, hp]
        · cases hp : dropWord "rue".toList r0 with
          | none => rw [hp] at h; exact absurd h (by simp)
          | some r1 =>
            rw [hp] at h
            simp only [Option.some.injEq, Prod.mk.injEq] at h
            obtain ⟨hv, hr⟩ := h
            subst hv hr
            have := dropWord_length _ _ _ hp
            refine ⟨by omega, ?_⟩
            intro g hgg
            obtain ⟨g1, rfl⟩ := hg g hgg
            rw [parseValue_succ, hs]
            simp only []
            rw [if_neg h1, if_neg h2, if_neg h3, if_pos h4, hp]
        · cases hp : dropWord "alse".toList r0 with
          | none => rw [hp] at h; exact absurd h (by simp)
          | some r1 =>
            rw [hp] at h
            simp only [Option.some.injEq, Prod.mk.injEq] at h
            obtain ⟨hv, hr⟩ := h
            subst hv hr
            have := dropWord_length _ _ _ hp
            refine ⟨by omega, ?_⟩
            intro g hgg
            obtain ⟨g1, rfl⟩ := hg g hgg
            rw [parseValue_succ, hs]
            simp only []
            rw [if_neg h1, if_neg h2, if_neg h3, if_neg h4, if_pos h5, hp]
        · cases hp : dropWord "ull".toList r0 with
          | none => rw [hp] at h; exact absurd h (by simp)
          | some r1 =>
            rw [hp] at h
            simp only [Option.some.injEq, Prod.mk.injEq] at h
            obtain ⟨hv, hr⟩ := h
            subst hv hr
            have := dropWord_length _ _ _ hp
            refine ⟨by omega, ?_⟩
            intro g hgg
            obtain ⟨g1, rfl⟩ := hg g hgg
            rw [parseValue_succ, hs]
            simp only []
            rw [if_neg h1, if_neg h2, if_neg h3, if_neg h4, if_neg h5, if_pos h6, hp]
        · cases hp : parseNumber (c :: r0) with
          | none => simp [hp] at h
          | some p =>
            obtain ⟨lit, r1⟩ := p
            simp only [hp, Option.some.injEq, Prod.mk.injEq] at h
            obtain ⟨hv, hr⟩ := h
            subst hv hr
            have := parseNumber_length _ _ _ hp
            simp only [List.length_cons] at this
            refine ⟨by omega, ?_⟩
            intro g hgg
            obtain ⟨g1, rfl⟩ := hg g hgg
            rw [parseValue_succ, hs]
            simp [h1, h2, h3, h4, h5, h6, hp]
    · intro acc cs v r h
      rw [parseElements_succ] at h
      cases hp : parseValue f cs with
      | none => simp [hp] at h
      | some p =>
        obtain ⟨x, r0⟩ := p
        obtain ⟨hl0, hfuel0⟩ := ihV cs x r0 hp
        simp only [hp] at h
        have hlen1 := skipWs_length r0
        cases hs1 : skipWs r0 with
        | nil => simp [hs1] at h
        | cons c r1 =>
          rw [hs1] at h hlen1
          simp only [List.length_cons] at hlen1
          simp only at h
          split_ifs at h with h1 h2
          · obtain ⟨hl, hfuel⟩ := ihE (acc ++ [x]) r1 v r h
            refine ⟨by omega, ?_⟩
            intro g hgg
            obtain ⟨g1, rfl⟩ : ∃ g1, g = g1 + 1 := ⟨g - 1, by omega⟩
            rw [parseElements_succ, hfuel0 g1 (by omega)]
            simp only [hs1, h1, if_true]
            exact hfuel g1 (by omega)
          · simp only [Option.some.injEq, Prod.mk.injEq] at h
            obtain ⟨hv, hr⟩ := h
            subst hv hr
            refine ⟨by omega, ?_⟩
            intro g hgg
            obtain ⟨g1, rfl⟩ : ∃ g1, g = g1 + 1 := ⟨g - 1, by omega⟩
            rw [parseElements_succ, hfuel0 g1 (by omega)]
            simp [hs1, h1, h2]
    · intro acc cs v r h
      rw [parseMembers_succ] at h
      have hlen0 := skipWs_length cs
      cases hs : skipWs cs with
      | nil => simp [hs] at h
      | cons q r0 =>
        rw [hs] at h hlen0
        simp only [List.length_cons] at hlen0
        simp only at h
        split_ifs at h with hq
        cases hk : parseStringBody none r0 with
        | none => simp [hk] at h
        | some p =>
          obtain ⟨k, r1⟩ := p
          have hlk := parseStringBody_length r0.length none r0 k r1 (le_refl _) hk
          simp only [hk] at h
          have hlen2 := skipWs_length r1
          cases hs2 : skipWs r1 with
          | nil => simp [hs2] at h
          | cons c r2 =>
            rw [hs2] at h hlen2
            simp only [List.length_cons] at hlen2
            simp only at h
            split_ifs at h with hc
            cases hp : parseValue f r2 with
            | none => simp [hp] at h
            | some p =>
              obtain ⟨x, r3⟩ := p
              obtain ⟨hl0, hfuel0⟩ := ihV r2 x r3 hp
              simp only [hp] at h
              have hlen4 := skipWs_length r3
              cases hs4 : skipWs r3 with
              | nil => simp [hs4] at h
              | cons c1 r4 =>
                rw [hs4] at h hlen4
                simp only [List.length_cons] at hlen4
                simp only at h
                split_ifs at h with h1 h2
                · obtain ⟨hl, hfuel⟩ := ihM _ r4 v r h
                  refine ⟨by omega, ?_⟩
                  intro g hgg
                  obtain ⟨g1, rfl⟩ : ∃ g1, g = g1 + 1 := ⟨g - 1, by omega⟩
                  rw [parseMembers_succ, hs]
                  simp only [hq, if_true, hk, hs2, hc, hfuel0 g1 (by omega), hs4, h1]
                  exact hfuel g1 (by omega)
                · simp only [Option.some.injEq, Prod.mk.injEq] at h
                  obtain ⟨hv, hr⟩ := h
                  subst hv hr
                  refine ⟨by omega, ?_⟩
                  intro g hgg
                  obtain ⟨g1, rfl⟩ : ∃ g1, g = g1 + 1 := ⟨g - 1, by omega⟩
                  rw [parseMembers_succ, hs]
                  simp [hq, hk, hs2, hc, hfuel0 g1 (by omega), hs4, h1, h2]

/-- Whatever some amount of fuel reads, the fuel of `parseChars` reads. -/
theorem parseValue_fuel (f : Nat) (cs : List Char) (v : JVal) (r : List Char)
    (h : parseValue f cs = some (v, r)) : parseValue (2 * cs.length + 2) cs = some (v, r) :=
  ((fuel_free f).1 cs v r h).2 _ (by omega)

/-- A plain value is parsed back from its serialization at any indentation. -/
theorem parse_stringify (v : JVal) (space : Nat) (hv : v.plain = true) :
    ∃ text, stringify v space = some text ∧ parse text = some v := by
  have hgap : (List.replicate (min space 10) ' ').all isWs = true := by
    simp only [List.all_eq_true, List.mem_replicate]
    rintro c ⟨_, rfl⟩
    rfl
  obtain ⟨t, ht, hp⟩ := parseValue_ser _ hgap v [] [] [] (need v) hv rfl rfl rfl (le_refl _)
  refine ⟨String.mk t, by simp [stringify, ht], ?_⟩
  simp only [List.nil_append, List.append_nil] at hp
  have := parseValue_fuel _ _ _ _ hp
  simp [parse, parseChars, this, skipWs]

end JSON

/-! ## Settings Editor save and the Shell -/

namespace Settings

/-- The handler `handleSave` by what its request settles with. -/
theorem handleSave_eq (env : Env) (net : Net) (p : Props) (st : State) :
    handleSave env net p st =
      (match net (handleSaveRequest env p st) with
        | none => { state := st, requests := [handleSaveRequest env p st], rejected := true }
        | some res =>
          if res.ok then
            { state := st, requests := [handleSaveRequest env p st], alerts := ["Saved"],
              onSaved := if p.onSaved then [handleSaveBody p st] else [] }
          else
            { state := st, requests := [handleSaveRequest env p st],
              alerts := ["Save failed"] }) := rfl

theorem keys_map_set (kvs : List (String × JVal)) (k : String) (v : JVal) :
    (kvs.map (fun p => if p.1 = k then (k, v) else p)).map Prod.fst = kvs.map Prod.fst := by
  induction kvs with
  | nil => rfl
  | cons p r ih =>
    simp only [List.map_cons, ih]
    congr 1
    split_ifs with h
    · exact h.symm
    · rfl

/-- Setting a property keeps the property names distinct. -/
theorem nodup_keys_setProp (kvs : List (String × JVal)) (k : String) (v : JVal)
    (h : (kvs.map Prod.fst).Nodup) : ((JVal.setProp kvs k v).map Prod.fst).Nodup := by
  unfold JVal.setProp
  split_ifs with hk
  · rw [keys_map_set]; exact h
  · rw [List.map_append, List.nodup_append]
    refine ⟨h, by simp, ?_⟩
    intro a ha hb
    simp only [List.map_cons, List.map_nil, List.mem_singleton] at hb
    subst hb
    exact hk ((JVal.mem_keys_iff_lookup kvs a).1 ha)

theorem membersPlain_append (a b : List (String × JVal)) :
    JVal.membersPlain (a ++ b) = (JVal.membersPlain a && JVal.membersPlain b) := by
  induction a with
  | nil => simp [JVal.membersPlain]
  | cons p r ih => simp [JVal.membersPlain, ih, Bool.and_assoc]

/-- Setting a property to a plain value keeps the property values plain. -/
theorem membersPlain_setProp (kvs : List (String × JVal)) (k : String) (v : JVal)
    (h : JVal.membersPlain kvs = true) (hv : v.plain = true) :
    JVal.membersPlain (JVal.setProp kvs k v) = true := by
  unfold JVal.setProp
  split_ifs with hk
  · clear hk
    induction kvs with
    | nil => rfl
    | cons p r ih =>
      simp only [JVal.membersPlain, Bool.and_eq_true] at h
      simp only [List.map_cons, JVal.membersPlain, Bool.and_eq_true]
      refine ⟨?_, ih h.2⟩
      split_ifs
      · simpa [JVal.memberPlain] using hv
      · exact h.1
  · rw [membersPlain_append, h]
    simp [JVal.membersPlain, JVal.memberPlain, hv]

/-- Setting a property of a plain object to a plain value gives a plain object. -/
theorem plain_setProp (kvs : List (String × JVal)) (k : String) (v : JVal)
    (h : (JVal.obj kvs).plain = true) (hv : v.plain = true) :
    (JVal.obj (JVal.setProp kvs k v)).plain = true := by
  simp only [JVal.plain, Bool.and_eq_true, decide_eq_true_eq] at h ⊢
  exact ⟨membersPlain_setProp kvs k v h.1 hv, nodup_keys_setProp kvs k v h.2⟩

/-- The body of `handleSave` is plain when the configuration is a plain object and every field
holds a plain value. -/
theorem handleSaveBody_plain (p : Props) (st : State) (kvs : List (String × JVal))
    (hc : p.initialConfig = JVal.obj kvs) (hj : (JVal.obj kvs).plain = true)
    (h1 : st.welcome.plain = true) (h2 : st.announcementChannel.plain = true)
    (h3 : st.roleId.plain = true) (h4 : st.font.plain = true)
    (h5 : st.imagePath.plain = true) : (handleSaveBody p st).plain = true := by
  rw [handleSaveBody_eq, cfg_obj p kvs hc]
  simp only [JVal.ownEntries]
  exact plain_setProp _ _ _ (plain_setProp _ _ _ (plain_setProp _ _ _
    (plain_setProp _ _ _ (plain_setProp _ _ _ hj h1) h2) h3) h4) h5

end Settings

/-- C2 (amended): when the write request of a Settings Editor save comes back with a success
status, with `b` the body posted, `onSaved` is called once with `b`, and the Shell afterwards
has `parsedConfig` equal to `b` and its raw text equal to the 2-space serialization of `b`;
parsing the raw text gives back the parsed state whenever `b` is plain data: it holds no
`undefined` and each number in it is an integer of magnitude at most 2^53.  When the response
is not a success, or the request fails, `onSaved` is not called and the Shell state is
unchanged. -/
theorem settings_save_syncs_shell (env : Env) (net : Net) (s : App.State)
    (e : Settings.State) :
    ((Settings.handleSave env net (App.settingsProps env s) e).requests =
      [handleSaveRequest env (App.settingsProps env s) e]) ∧
    (∀ res, net (handleSaveRequest env (App.settingsProps env s) e) = some res →
      res.ok = true →
      (Settings.handleSave env net (App.settingsProps env s) e).onSaved =
        [Settings.handleSaveBody (App.settingsProps env s) e] ∧
      (App.settingsSave env net s e).parsedConfig =
        Settings.handleSaveBody (App.settingsProps env s) e ∧
      (App.settingsSave env net s e).config =
        JSON.stringify (Settings.handleSaveBody (App.settingsProps env s) e) 2 ∧
      (App.settingsSave env net s e).guildId = s.guildId ∧
      (App.settingsSave env net s e).showSettings = s.showSettings ∧
      ((Settings.handleSaveBody (App.settingsProps env s) e).plain = true →
        ∃ text, (App.settingsSave env net s e).config = some text ∧
          JSON.parse text = some (App.settingsSave env net s e).parsedConfig)) ∧
    (∀ res, net (handleSaveRequest env (App.settingsProps env s) e) = some res →
      res.ok = false →
      (Settings.handleSave env net (App.settingsProps env s) e).onSaved = [] ∧
      App.settingsSave env net s e = s) ∧
    (net (handleSaveRequest env (App.settingsProps env s) e) = none →
      (Settings.handleSave env net (App.settingsProps env s) e).onSaved = [] ∧
      App.settingsSave env net s e = s) := by
  refine ⟨?_, ?_, ?_, ?_⟩
  · rw [Settings.handleSave_eq]
    split
    · rfl
    · split <;> rfl
  · intro res hn hok
    have hs : (Settings.handleSave env net (App.settingsProps env s) e).onSaved =
        [Settings.handleSaveBody (App.settingsProps env s) e] := by
      rw [Settings.handleSave_eq, hn]
      simp only [hok, if_true]
      rfl
    have hst : App.settingsSave env net s e =
        App.onSaved (Settings.handleSaveBody (App.settingsProps env s) e) s := by
      unfold App.settingsSave
      rw [hs]
      rfl
    refine ⟨hs, ?_, ?_, ?_, ?_, ?_⟩
    · rw [hst]; rfl
    · rw [hst]; rfl
    · rw [hst]; rfl
    · rw [hst]; rfl
    · intro hj
      obtain ⟨text, ht, hp⟩ :=
        JSON.parse_stringify (Settings.handleSaveBody (App.settingsProps env s) e) 2 hj
      refine ⟨text, ?_, ?_⟩
      · rw [hst]; exact ht
      · rw [hst]; exact hp
  · intro res hn hok
    have hs : (Settings.handleSave env net (App.settingsProps env s) e).onSaved = [] := by
      rw [Settings.handleSave_eq, hn]
      simp only [hok]
      rfl
    refine ⟨hs, ?_⟩
    unfold App.settingsSave
    rw [hs]
    rfl
  · intro hn
    have hs : (Settings.handleSave env net (App.settingsProps env s) e).onSaved = [] := by
      rw [Settings.handleSave_eq, hn]
    refine ⟨hs, ?_⟩
    unfold App.settingsSave
    rw [hs]
    rfl

/-- C2 at guild `1`: the editor opened on `{"font":"Arial","level":3}` and saved as it is. -/
theorem settings_save_syncs_shell_witness :
    (App.settingsSave env0 netEmptyReply loadedState
      (Settings.init (App.settingsProps env0 loadedState))).parsedConfig =
      JVal.obj [("font", JVal.str "Arial"), ("level", JVal.num (JNum.int 3)),
        ("welcome_message", JVal.str ""), ("announcement_channel_id", JVal.str ""),
        ("role_id", JVal.str ""), ("image", JVal.str "")] ∧
    (JVal.obj [("font", JVal.str "Arial"), ("level", JVal.num (JNum.int 3)),
        ("welcome_message", JVal.str ""), ("announcement_channel_id", JVal.str ""),
        ("role_id", JVal.str ""), ("image", JVal.str "")]).plain = true ∧
    ∃ text, (App.settingsSave env0 netEmptyReply loadedState
        (Settings.init (App.settingsProps env0 loadedState))).config = some text ∧
      JSON.parse text = some (App.settingsSave env0 netEmptyReply loadedState
        (Settings.init (App.settingsProps env0 loadedState))).parsedConfig := by
  have h := (settings_save_syncs_shell env0 netEmptyReply loadedState
    (Settings.init (App.settingsProps env0 loadedState))).2.1 _ rfl rfl
  refine ⟨?_, by rfl, h.2.2.2.2.2 (by rfl)⟩
  rw [h.2.1]
  rfl

/-- C2 (as stated) fails: `load` reads the configuration `{"x":1e400}`, whose number is
`Infinity` as a double; the editor is opened and saved as it is, and the save succeeds.  The
body posted holds no `undefined`.  The Shell's parsed state then has `x` bound to `Infinity`,
its raw text is the serialization of that state, which writes `null` for `x`, and parsing the
raw text gives `x` bound to `null`: not the parsed state. -/
theorem settings_save_overflowing_number :
    overflowState.parsedConfig = JVal.obj [("x", JVal.num (JNum.inf false))] ∧
    (App.settingsSave env0 netOverflow overflowState
      (Settings.init (App.settingsProps env0 overflowState))).parsedConfig =
      JVal.obj [("x", JVal.num (JNum.inf false)), ("welcome_message", JVal.str ""),
        ("announcement_channel_id", JVal.str ""), ("role_id", JVal.str ""),
        ("font", JVal.str ""), ("image", JVal.str "")] ∧
    (App.settingsSave env0 netOverflow overflowState
      (Settings.init (App.settingsProps env0 overflowState))).config =
      JSON.stringify (App.settingsSave env0 netOverflow overflowState
        (Settings.init (App.settingsProps env0 overflowState))).parsedConfig 2 ∧
    (App.settingsSave env0 netOverflow overflowState
      (Settings.init (App.settingsProps env0 overflowState))).config =
      some ("\x7b\n  \"x\": null,\n  \"welcome_message\": \"\",\n" ++
        "  \"announcement_channel_id\": \"\",\n  \"role_id\": \"\",\n" ++
        "  \"font\": \"\",\n  \"image\": \"\"\n\x7d") ∧
    JSON.parseText (App.settingsSave env0 netOverflow overflowState
      (Settings.init (App.settingsProps env0 overflowState))).config =
      some (JVal.obj [("x", JVal.null), ("welcome_message", JVal.str ""),
        ("announcement_channel_id", JVal.str ""), ("role_id", JVal.str ""),
        ("font", JVal.str ""), ("image", JVal.str "")]) ∧
    JSON.parseText (App.settingsSave env0 netOverflow overflowState
      (Settings.init (App.settingsProps env0 overflowState))).config ≠
      some (App.settingsSave env0 netOverflow overflowState
        (Settings.init (App.settingsProps env0 overflowState))).parsedConfig := by
  have h1 : (App.settingsSave env0 netOverflow overflowState
      (Settings.init (App.settingsProps env0 overflowState))).parsedConfig =
      JVal.obj [("x", JVal.num (JNum.inf false)), ("welcome_message", JVal.str ""),
        ("announcement_channel_id", JVal.str ""), ("role_id", JVal.str ""),
        ("font", JVal.str ""), ("image", JVal.str "")] := by rfl
  have h2 : JSON.parseText (App.settingsSave env0 netOverflow overflowState
      (Settings.init (App.settingsProps env0 overflowState))).config =
      some (JVal.obj [("x", JVal.null), ("welcome_message", JVal.str ""),
        ("announcement_channel_id", JVal.str ""), ("role_id", JVal.str ""),
        ("font", JVal.str ""), ("image", JVal.str "")]) := by rfl
  refine ⟨by rfl, h1, by rfl, by rfl, h2, ?_⟩
  rw [h2, h1]
  intro h
  simp at h
